import Mathlib

/-!
Verification of the vibecheck movie-analysis backend (src/backend/main.py).

The source file contains two revisions of the same FastAPI entrypoint
concatenated: a Bytez-based variant (lines 1-151) and a Gemini-based
variant with an ordered model-fallback / rate-limit-retry loop
(lines 152-308).  This development gives a shallow embedding of the parts
of that code the claims are about:

  - Python strings are modelled as `List Char` (`PyStr`); Python string
    slicing, containment and lower-casing are the corresponding list
    operations on characters.
  - `json.loads` is modelled by `Json.parse`, an executable recursive
    descent parser for the JSON fragment the pipeline exchanges
    (null, booleans, integer numbers, strings with escapes, arrays,
    objects); parse failure is `none`, matching a raised
    `json.JSONDecodeError`.  Floating point numbers are outside the
    model (the schema in play is integer-valued).
  - The regex extraction `re.search(r..., re.DOTALL)` of the first
    opening brace through the last closing brace is `extractSpan`.
  - The Gemini fallback loop (lines 249-291) is embedded as the
    recursive functions `runAttempts` (the inner retry loop over
    `range(max_retries)`) and `runModels` (the outer loop over
    `models_to_try`), driven by an oracle `Behavior` giving the outcome
    of each network invocation, and producing the trace of invocations
    and sleeps next to the final state of the `analysis` and
    `last_error` variables.
  - All definitions are structurally recursive and executable.
-/

/-- Python strings, modelled as their list of characters. -/
abbrev PyStr := List Char

/-- Python boolean `needle in hay` check at the start of `hay`. -/
def startsWith : PyStr → PyStr → Bool
  | [], _ => true
  | _ :: _, [] => false
  | a :: as, b :: bs => a == b && startsWith as bs

/-- Python substring containment `needle in hay`. -/
def containsSub (needle : PyStr) : PyStr → Bool
  | [] => needle.isEmpty
  | c :: t => startsWith needle (c :: t) || containsSub needle t

/-- Python `s.lower()` (ASCII-relevant part of it). -/
def pyLower (s : PyStr) : PyStr := s.map Char.toLower

/-- JSON values as produced by `json.loads`, restricted to the shapes the
pipeline exchanges.  Objects are association lists in insertion order. -/
inductive Json where
  | null
  | bool (b : Bool)
  | num (n : Int)
  | str (s : PyStr)
  | arr (elems : List Json)
  | obj (members : List (PyStr × Json))

/-- Python truthiness of a decoded JSON value (`if analysis:`). -/
def pyTruthy : Json → Bool
  | Json.null => false
  | Json.bool b => b
  | Json.num n => n != 0
  | Json.str s => !s.isEmpty
  | Json.arr xs => !xs.isEmpty
  | Json.obj ms => !ms.isEmpty

/-- The whitespace characters `json.loads` skips between tokens. -/
def isJsonWs (c : Char) : Bool :=
  c == ' ' || c == '\t' || c == '\n' || c == '\r'

/-- Skip JSON whitespace. -/
def skipWs (cs : List Char) : List Char := cs.dropWhile isJsonWs

/-- Value of one hexadecimal digit, as read by a JSON \u escape. -/
def hexVal (c : Char) : Option Nat :=
  if c.isDigit then some (c.toNat - 48)
  else if 'a' ≤ c && c ≤ 'f' then some (c.toNat - 87)
  else if 'A' ≤ c && c ≤ 'F' then some (c.toNat - 55)
  else none

/-- The character denoted by a short JSON escape after a backslash. -/
def escCharOf : Char → Option Char
  | '"' => some '"'
  | '\\' => some '\\'
  | '/' => some '/'
  | 'b' => some '\x08'
  | 'f' => some '\x0c'
  | 'n' => some '\n'
  | 'r' => some '\r'
  | 't' => some '\t'
  | _ => none

/-- Body of a JSON string literal after the opening quote: returns the
decoded characters and the remainder after the closing quote.  Raw
control characters are rejected, as in strict `json.loads`.  (Surrogate
pair recombination of \u escapes is outside the model; the escapes the
serializer emits are all below 0x20.) -/
def parseStringBody : List Char → Option (List Char × List Char)
  | [] => none
  | c :: cs =>
    if c = '"' then some ([], cs)
    else if c = '\\' then
      match cs with
      | [] => none
      | e :: cs2 =>
        if e = 'u' then
          match cs2 with
          | h1 :: h2 :: h3 :: h4 :: cs3 =>
            match hexVal h1, hexVal h2, hexVal h3, hexVal h4 with
            | some v1, some v2, some v3, some v4 =>
              match parseStringBody cs3 with
              | some (s, r) =>
                some (Char.ofNat (((v1 * 16 + v2) * 16 + v3) * 16 + v4) :: s, r)
              | none => none
            | _, _, _, _ => none
          | _ => none
        else
          match escCharOf e with
          | some d =>
            match parseStringBody cs2 with
            | some (s, r) => some (d :: s, r)
            | none => none
          | none => none
    else if c.toNat < 32 then none
    else
      match parseStringBody cs with
      | some (s, r) => some (c :: s, r)
      | none => none

/-- Collect a maximal run of decimal digits. -/
def collectDigits : List Char → List Char × List Char
  | [] => ([], [])
  | c :: cs =>
    if c.isDigit then
      match collectDigits cs with
      | (ds, r) => (c :: ds, r)
    else ([], c :: cs)

/-- Numeric value of a run of decimal digit characters. -/
def natOfDigits (ds : List Char) : Nat :=
  ds.foldl (fun a c => a * 10 + (c.toNat - 48)) 0

/-- True when the characters after an integer part would make the number
a float or exponent; such numbers are outside this model. -/
def numberContinues : List Char → Bool
  | '.' :: _ => true
  | 'e' :: _ => true
  | 'E' :: _ => true
  | _ => false

/-- Parse the digit part of a JSON integer (no leading zero, no float or
exponent continuation) and combine it with the given sign. -/
def parseNumTail (neg : Bool) (cs : List Char) : Option (Int × List Char) :=
  match collectDigits cs with
  | (ds, r) =>
    if ds.isEmpty then none
    else if 1 < ds.length && ds.head? == some '0' then none
    else if numberContinues r then none
    else if neg then some (-(natOfDigits ds : Int), r)
    else some ((natOfDigits ds : Int), r)

/-- Parse a JSON integer (optional minus sign, digits, no leading zero). -/
def parseNum (cs : List Char) : Option (Int × List Char) :=
  match cs with
  | [] => none
  | c :: rest =>
    if c = '-' then parseNumTail true rest else parseNumTail false (c :: rest)

/-- Parse the items of a non-empty JSON array, given a parser `pv` for a
single value.  The fuel bounds the number of items. -/
def parseItemsAux (pv : List Char → Option (Json × List Char)) :
    Nat → List Char → Option (List Json × List Char)
  | 0, _ => none
  | fuel + 1, cs =>
    match pv cs with
    | none => none
    | some (v, r) =>
      match skipWs r with
      | ',' :: r2 =>
        match parseItemsAux pv fuel r2 with
        | some (vs, r3) => some (v :: vs, r3)
        | none => none
      | ']' :: r2 => some ([v], r2)
      | _ => none

/-- Parse the members of a non-empty JSON object, given a parser `pv` for
a single value.  The fuel bounds the number of members. -/
def parseMembersAux (pv : List Char → Option (Json × List Char)) :
    Nat → List Char → Option (List (PyStr × Json) × List Char)
  | 0, _ => none
  | fuel + 1, cs =>
    match skipWs cs with
    | '"' :: r =>
      match parseStringBody r with
      | none => none
      | some (k, r2) =>
        match skipWs r2 with
        | ':' :: r3 =>
          match pv r3 with
          | none => none
          | some (v, r4) =>
            match skipWs r4 with
            | ',' :: r5 =>
              match parseMembersAux pv fuel r5 with
              | some (ms, r6) => some ((k, v) :: ms, r6)
              | none => none
            | '}' :: r5 => some ([(k, v)], r5)
            | _ => none
        | _ => none
    | _ => none

/-- Parse one JSON value; the fuel bounds nesting depth and aggregate
sizes and is chosen large enough at the top entry point. -/
def parseVal : Nat → List Char → Option (Json × List Char)
  | 0, _ => none
  | fuel + 1, cs =>
    match skipWs cs with
    | [] => none
    | c :: rest =>
      if c = 'n' then
        match rest with
        | 'u' :: 'l' :: 'l' :: r => some (Json.null, r)
        | _ => none
      else if c = 't' then
        match rest with
        | 'r' :: 'u' :: 'e' :: r => some (Json.bool true, r)
        | _ => none
      else if c = 'f' then
        match rest with
        | 'a' :: 'l' :: 's' :: 'e' :: r => some (Json.bool false, r)
        | _ => none
      else if c = '"' then
        match parseStringBody rest with
        | some (s, r) => some (Json.str s, r)
        | none => none
      else if c = '[' then
        match skipWs rest with
        | ']' :: r => some (Json.arr [], r)
        | _ =>
          match parseItemsAux (parseVal fuel) fuel rest with
          | some (vs, r) => some (Json.arr vs, r)
          | none => none
      else if c = '{' then
        match skipWs rest with
        | '}' :: r => some (Json.obj [], r)
        | _ =>
          match parseMembersAux (parseVal fuel) fuel rest with
          | some (ms, r) => some (Json.obj ms, r)
          | none => none
      else if c = '-' || c.isDigit then
        match parseNum (c :: rest) with
        | some (z, r) => some (Json.num z, r)
        | none => none
      else none

/-- Model of `json.loads`: parse one value, then require only whitespace
to remain (otherwise `json.loads` raises Extra data).  `none` models a
raised `json.JSONDecodeError`. -/
def Json.parse (cs : List Char) : Option Json :=
  match parseVal (2 * cs.length + 2) cs with
  | some (v, r) => if (skipWs r).isEmpty then some v else none
  | none => none

/-- Model of the regex search for the span from the first opening brace
through the last closing brace of the text (greedy, DOTALL), as in
lines 129 and 266 of the source; `none` when the regex does not match. -/
def extractSpan (cs : List Char) : Option (List Char) :=
  match cs.dropWhile (fun c => c != '{') with
  | [] => none
  | c :: t =>
    match (c :: t).reverse.dropWhile (fun c2 => c2 != '}') with
    | [] => none
    | d :: t2 => some (d :: t2).reverse

/-- The response normalization of lines 128-134 and 265-271: if the brace
span exists, parse it with `json.loads`; only when there is no span at
all is the whole text parsed instead.  `none` means the code raised
`json.JSONDecodeError`. -/
def pyNormalize (t : PyStr) : Option Json :=
  match extractSpan t with
  | some span => Json.parse span
  | none => Json.parse t

/-- A marker check of the source: `"429" in error_str`. -/
def hasMarker429 (s : PyStr) : Bool := containsSub "429".data s

/-- A marker check of the source: `"404" in error_str`. -/
def hasMarker404 (s : PyStr) : Bool := containsSub "404".data s

/-- Line 279 of the source: an error counts as rate limited when its text
contains 429 or its lower-cased text contains quota. -/
def isRateLimitErr (s : PyStr) : Bool :=
  hasMarker429 s || containsSub "quota".data (pyLower s)

/-- How the except-handler of lines 276-291 disposes of an error text:
retry the same model after sleeping, or move to the next model (the
marker-404 and the unknown branches both break out of the retry loop). -/
inductive ErrAction where
  | retry
  | nextModel404
  | nextModelOther

/-- The if/elif/else chain of lines 279-291 classifying `str(e)`. -/
def classifyErr (s : PyStr) : ErrAction :=
  if isRateLimitErr s then ErrAction.retry
  else if hasMarker404 s then ErrAction.nextModel404
  else ErrAction.nextModelOther

/-- Observable step of the fallback loop: one network invocation of a
model (with its per-model attempt index) or one backoff sleep (seconds). -/
inductive Event where
  | invoke (model : String) (attempt : Nat)
  | sleep (seconds : Nat)

/-- What one network invocation of a model does: produce the response
text, or raise an exception whose `str` is the given text. -/
inductive StepResult where
  | output (t : PyStr)
  | error (s : PyStr)

/-- Oracle giving the result of invoking a model at a given attempt
index inside a single request. -/
abbrev Behavior := String → Nat → StepResult

/-- The ordered fallback list of line 242 of the source. -/
def modelsToTry : List String :=
  ["gemini-2.0-flash", "gemini-1.5-flash", "gemini-1.5-flash-001", "gemini-pro"]

/-- The inner retry loop of lines 257-291 (`for attempt in range(max_retries)`)
for one model.  Arguments: the behavior oracle, the function `f` giving
the `str` of the `json.JSONDecodeError` raised when the response text
does not parse, the model, the remaining attempts, the current attempt
index, and the current values of the `analysis` and `last_error`
variables.  Returns the trace of events next to the updated variables. -/
def runAttempts (b : Behavior) (f : PyStr → PyStr) (m : String) :
    Nat → Nat → Json → Option PyStr → List Event × Json × Option PyStr
  | 0, _, a, le => ([], a, le)
  | rem + 1, idx, a, le =>
    match b m idx with
    | StepResult.output t =>
      match pyNormalize t with
      | some v => ([Event.invoke m idx], v, le)
      | none =>
        match classifyErr (f t) with
        | ErrAction.retry =>
          match runAttempts b f m rem (idx + 1) a (some (f t)) with
          | (tr, a2, le2) => (Event.invoke m idx :: Event.sleep 4 :: tr, a2, le2)
        | ErrAction.nextModel404 => ([Event.invoke m idx], a, some (f t))
        | ErrAction.nextModelOther => ([Event.invoke m idx], a, some (f t))
    | StepResult.error s =>
      match classifyErr s with
      | ErrAction.retry =>
        match runAttempts b f m rem (idx + 1) a (some s) with
        | (tr, a2, le2) => (Event.invoke m idx :: Event.sleep 4 :: tr, a2, le2)
      | ErrAction.nextModel404 => ([Event.invoke m idx], a, some s)
      | ErrAction.nextModelOther => ([Event.invoke m idx], a, some s)

/-- The outer loop of lines 249-291 (`for model_name in models_to_try`),
with the truthiness check `if analysis: break` at the top of each
iteration and three attempts per model. -/
def runModels (b : Behavior) (f : PyStr → PyStr) :
    List String → Json → Option PyStr → List Event × Json × Option PyStr
  | [], a, le => ([], a, le)
  | m :: ms, a, le =>
    if pyTruthy a then ([], a, le)
    else
      match runAttempts b f m 3 0 a le with
      | (tr, a2, le2) =>
        match runModels b f ms a2 le2 with
        | (tr2, a3, le3) => (tr ++ tr2, a3, le3)

/-- Python `str(last_error)` where `last_error` may still be `None`. -/
def pyStrOfErr : Option PyStr → PyStr
  | none => "None".data
  | some s => s

/-- Terminal outcome of the request handler: a JSON analysis or a raised
`HTTPException` with status and detail. -/
inductive Outcome where
  | ok (analysis : Json)
  | httpError (status : Nat) (detail : PyStr)

/-- Detail of the 429 response of line 296. -/
def busyDetail : PyStr :=
  "Server is busy (Rate Limit). Please try again in a few seconds.".data

/-- Detail of the 500 response of lines 294-297. -/
def exhaustDetail (le : Option PyStr) : PyStr :=
  "All models failed. Last error: ".data ++ pyStrOfErr le

/-- Lines 293-303: with a falsy `analysis` reply 429 exactly when
`str(last_error)` contains 429, else 500; with a truthy `analysis`
return it. -/
def finalize (a : Json) (le : Option PyStr) : Outcome :=
  if pyTruthy a then Outcome.ok a
  else if hasMarker429 (pyStrOfErr le) then Outcome.httpError 429 busyDetail
  else Outcome.httpError 500 (exhaustDetail le)

/-- The Gemini-variant orchestration of lines 244-303: run the fallback
loop from `analysis = None`, `last_error = None`, then apply the final
status mapping.  Returns the event trace next to the outcome. -/
def geminiOrchestrate (b : Behavior) (f : PyStr → PyStr) : List Event × Outcome :=
  match runModels b f modelsToTry Json.null none with
  | (tr, a, le) => (tr, finalize a le)

/-- Step C of the Bytez variant (lines 108-147): the model output is
normalized; a `json.JSONDecodeError` is answered with HTTP 500, and an
error reported by the client is re-raised and answered with HTTP 500. -/
inductive BytezResult where
  | apiError (msg : PyStr)
  | output (t : PyStr)

/-- Outcome of lines 121-147 of the Bytez variant given the client
result: a parsed analysis, or the HTTP error raised. -/
def bytezStepC (r : BytezResult) : Except (Nat × PyStr) Json :=
  match r with
  | BytezResult.apiError m =>
    Except.error (500, "AI Analysis Error: Bytez API Error: ".data ++ m)
  | BytezResult.output t =>
    match pyNormalize t with
    | some a => Except.ok a
    | none => Except.error (500, "Failed to parse AI response".data)

/-- Modelled from the spec: the fixed fallback literal the specification
says the Response Normalizer substitutes when both parse attempts fail
(sentiment_summary, vibe_tags, intensity_score 5, templated
visual_prompt).  No such literal exists anywhere in the source; this
definition follows the words of the spec so the code can be compared
against it. -/
def specFallbackLiteral (movieTitle : PyStr) : Json :=
  Json.obj
    [("sentiment_summary".data, Json.str "Vibes are mysterious...".data),
     ("vibe_tags".data, Json.arr [Json.str "Mystery".data, Json.str "Unknown".data]),
     ("intensity_score".data, Json.num 5),
     ("visual_prompt".data,
       Json.str ("A mysterious abstract poster for the movie ".data ++ movieTitle))]

/-- A movie record from the catalog search, with the fields the code
reads.  `overview` is absent when the key is missing from the payload. -/
structure MovieRec where
  id : Nat
  title : PyStr
  posterPath : Option PyStr
  overview : Option PyStr

/-- Outcome of the catalog search call of lines 53-56: the http error
raised by `raise_for_status` (a `requests.exceptions.HTTPError`), some
other failure (network, malformed body), or the decoded results list. -/
inductive SearchOutcome where
  | httpErr (msg : PyStr)
  | otherErr (msg : PyStr)
  | ok (results : List MovieRec)

/-- Step A of the handler (lines 51-75 and 182-206): the try block picks
the first result or raises `HTTPException(404)` on zero results; the
except clauses turn a `requests` HTTPError into 502 and any other
exception into 500.  The raised `HTTPException(404, detail)` is itself
an `Exception`, so it is caught by the blanket handler and re-raised as
a 500 whose detail embeds `str(e) = "404: Movie not found on TMDB"`. -/
def searchStep (r : SearchOutcome) : Except (Nat × PyStr) MovieRec :=
  match r with
  | SearchOutcome.httpErr m => Except.error (502, "TMDB API Error: ".data ++ m)
  | SearchOutcome.otherErr m => Except.error (500, "TMDB Search Error: ".data ++ m)
  | SearchOutcome.ok [] =>
    Except.error (500, "TMDB Search Error: ".data ++ "404: Movie not found on TMDB".data)
  | SearchOutcome.ok (movie :: _) => Except.ok movie

/-- One entry of the review payload; `content` is absent when the key is
missing (reading it raises `KeyError`). -/
structure ReviewRec where
  content : Option PyStr

/-- Outcome of the review fetch call of lines 79-81: the decoded results
list, or any raised exception. -/
inductive ReviewsFetch where
  | ok (results : List ReviewRec)
  | fail

/-- The list comprehension of line 83 reading `r["content"]` of each
record: `none` models the `KeyError` raised when a content key is
missing. -/
def contentsOf : List ReviewRec → Option (List PyStr)
  | [] => some []
  | r :: t =>
    match r.content with
    | none => none
    | some c =>
      match contentsOf t with
      | none => none
      | some cs => some (c :: cs)

/-- Step B of the handler (lines 77-92): take the contents of the first
five reviews; on an empty list or on any exception substitute the
one-element list holding `movie.get("overview", "")`. -/
def reviewsFor (overview : Option PyStr) (r : ReviewsFetch) : List PyStr :=
  match r with
  | ReviewsFetch.fail => [overview.getD []]
  | ReviewsFetch.ok results =>
    match contentsOf (results.take 5) with
    | none => [overview.getD []]
    | some revs => if revs.isEmpty then [overview.getD []] else revs

/-- Python `"\n\n".join(reviews)`. -/
def joinReviews : List PyStr → PyStr
  | [] => []
  | [r] => r
  | r :: rs => r ++ '\n' :: '\n' :: joinReviews rs

/-- Python `s[:cap]` applied when `len(s) > cap` (lines 97-98, 228-229). -/
def truncateAt (cap : Nat) (s : PyStr) : PyStr :=
  if cap < s.length then s.take cap else s

/-- The instruction preamble of the prompt (lines 100-105 and 231-236),
identical in both variants; the reviews text follows it. -/
def promptPreamble (movieTitle : PyStr) : PyStr :=
  "Analyze these reviews for the movie \x27".data ++ movieTitle ++
  "\x27. Return a strictly valid JSON object (no markdown formatting, no comments) with keys: \x27sentiment_summary\x27 (1 sentence string), \x27vibe_tags\x27 (list of 3-5 strings), and \x27intensity_score\x27 (integer 1-10).\n\nReviews:\n".data

/-- Prompt construction of the Bytez variant (lines 95-106): 5000-char cap. -/
def buildPromptBytez (movieTitle : PyStr) (reviews : List PyStr) : PyStr :=
  promptPreamble movieTitle ++ truncateAt 5000 (joinReviews reviews)

/-- Prompt construction of the Gemini variant (lines 226-237): 10000-char cap. -/
def buildPromptGemini (movieTitle : PyStr) (reviews : List PyStr) : PyStr :=
  promptPreamble movieTitle ++ truncateAt 10000 (joinReviews reviews)

/-- Models invoked in a trace, in order, one entry per invocation. -/
def invokedList : List Event → List String
  | [] => []
  | Event.invoke m _ :: t => m :: invokedList t
  | Event.sleep _ :: t => invokedList t

/-- Collapse adjacent duplicates, with fuel for structural recursion. -/
def dedupAdjAux : Nat → List String → List String
  | 0, _ => []
  | _, [] => []
  | fuel + 1, x :: t => x :: dedupAdjAux fuel (t.dropWhile (fun y => x == y))

/-- Collapse adjacent duplicates of a list of model names. -/
def dedupAdj (l : List String) : List String := dedupAdjAux l.length l

/-- Lower-case hexadecimal digit, as emitted in \u00xx escapes. -/
def hexDigit : Nat → Char
  | 0 => '0' | 1 => '1' | 2 => '2' | 3 => '3' | 4 => '4'
  | 5 => '5' | 6 => '6' | 7 => '7' | 8 => '8' | 9 => '9'
  | 10 => 'a' | 11 => 'b' | 12 => 'c' | 13 => 'd' | 14 => 'e' | 15 => 'f'
  | _ => '*'

/-- JSON escaping of one character: quote and backslash get a backslash
escape, control characters a \u00xx escape, everything else stands for
itself. -/
def escapeChar (c : Char) : List Char :=
  if c = '"' then ['\\', '"']
  else if c = '\\' then ['\\', '\\']
  else if c.toNat < 32 then
    ['\\', 'u', '0', '0', hexDigit (c.toNat / 16), hexDigit (c.toNat % 16)]
  else [c]

/-- JSON escaping of a whole string body. -/
def escapeChars (s : PyStr) : List Char := (s.map escapeChar).flatten

/-- A JSON string literal for `s`. -/
def serializeStr (s : PyStr) : List Char := '"' :: escapeChars s ++ ['"']

/-- Decimal digit character (digits below ten only). -/
def digitChar : Nat → Char
  | 0 => '0' | 1 => '1' | 2 => '2' | 3 => '3' | 4 => '4'
  | 5 => '5' | 6 => '6' | 7 => '7' | 8 => '8' | 9 => '9'
  | _ => '*'

/-- Decimal digits of a natural number, most significant first, with
fuel for structural recursion. -/
def natToCharsAux : Nat → Nat → List Char
  | 0, _ => []
  | fuel + 1, n =>
    if n < 10 then [digitChar n]
    else natToCharsAux fuel (n / 10) ++ [digitChar (n % 10)]

/-- Decimal digits of a natural number, most significant first. -/
def natToChars (n : Nat) : List Char := natToCharsAux (n + 1) n

/-- A JSON integer literal. -/
def serializeInt (z : Int) : List Char :=
  if z < 0 then '-' :: natToChars z.natAbs else natToChars z.natAbs

/-- The comma-separated item list of a JSON array of strings. -/
def serializeStrItems : List PyStr → List Char
  | [] => []
  | x :: xs =>
    serializeStr x ++ (if xs.isEmpty then [] else ',' :: serializeStrItems xs)

/-- A JSON array literal of strings. -/
def serializeStrList (xs : List PyStr) : List Char :=
  '[' :: serializeStrItems xs ++ [']']

/-- The AnalysisResult of the data model: summary, tags, score, and the
optional visual prompt. -/
structure AnalysisResult where
  sentiment_summary : PyStr
  vibe_tags : List PyStr
  intensity_score : Int
  visual_prompt : Option PyStr

/-- The member list of the JSON serialization of an AnalysisResult. -/
def analysisBody (a : AnalysisResult) : List Char :=
  serializeStr "sentiment_summary".data ++ ':' :: serializeStr a.sentiment_summary ++
  ',' :: serializeStr "vibe_tags".data ++ ':' :: serializeStrList a.vibe_tags ++
  ',' :: serializeStr "intensity_score".data ++ ':' :: serializeInt a.intensity_score ++
  (match a.visual_prompt with
   | none => []
   | some v => ',' :: serializeStr "visual_prompt".data ++ ':' :: serializeStr v)

/-- The JSON serialization of an AnalysisResult. -/
def serializeAnalysis (a : AnalysisResult) : List Char :=
  '{' :: analysisBody a ++ ['}']

/-- The Json value an AnalysisResult denotes, member order as serialized. -/
def analysisToJson (a : AnalysisResult) : Json :=
  Json.obj
    (("sentiment_summary".data, Json.str a.sentiment_summary) ::
     ("vibe_tags".data, Json.arr (a.vibe_tags.map Json.str)) ::
     ("intensity_score".data, Json.num a.intensity_score) ::
     (match a.visual_prompt with
      | none => []
      | some v => [("visual_prompt".data, Json.str v)]))

/-! ## Helper lemmas about the fallback loop -/

/-- One rate-limited attempt: sleep 4 seconds and retry the same model. -/
theorem runAttempts_retry (b : Behavior) (f : PyStr → PyStr) (m : String)
    (rem idx : Nat) (a : Json) (le : Option PyStr) (s : PyStr)
    (hb : b m idx = StepResult.error s) (hs : isRateLimitErr s = true) :
    runAttempts b f m (rem + 1) idx a le =
      (Event.invoke m idx :: Event.sleep 4 ::
        (runAttempts b f m rem (idx + 1) a (some s)).1,
       (runAttempts b f m rem (idx + 1) a (some s)).2) := by
  have hc : classifyErr s = ErrAction.retry := by
    unfold classifyErr
    rw [hs]
    simp
  rcases hr : runAttempts b f m rem (idx + 1) a (some s) with ⟨tr, a2, le2⟩
  simp [runAttempts, hb, hc, hr]

/-- A non-rate-limited error: record it and break out of the retry loop. -/
theorem runAttempts_break (b : Behavior) (f : PyStr → PyStr) (m : String)
    (rem idx : Nat) (a : Json) (le : Option PyStr) (s : PyStr)
    (hb : b m idx = StepResult.error s) (hs : isRateLimitErr s = false) :
    runAttempts b f m (rem + 1) idx a le = ([Event.invoke m idx], a, some s) := by
  have hc : classifyErr s = ErrAction.nextModel404 ∨
      classifyErr s = ErrAction.nextModelOther := by
    unfold classifyErr
    rw [hs]
    cases hasMarker404 s <;> simp
  rcases hc with hc | hc <;> simp [runAttempts, hb, hc]

/-- A response whose text parses: assign `analysis` and break. -/
theorem runAttempts_success (b : Behavior) (f : PyStr → PyStr) (m : String)
    (rem idx : Nat) (a : Json) (le : Option PyStr) (t : PyStr) (v : Json)
    (hb : b m idx = StepResult.output t) (hp : pyNormalize t = some v) :
    runAttempts b f m (rem + 1) idx a le = ([Event.invoke m idx], v, le) := by
  simp [runAttempts, hb, hp]

/-- A response whose text does not parse and whose decode-error text is
not rate-limit flavored: record the decode error and break. -/
theorem runAttempts_parsefail (b : Behavior) (f : PyStr → PyStr) (m : String)
    (rem idx : Nat) (a : Json) (le : Option PyStr) (t : PyStr)
    (hb : b m idx = StepResult.output t) (hp : pyNormalize t = none)
    (hf : isRateLimitErr (f t) = false) :
    runAttempts b f m (rem + 1) idx a le = ([Event.invoke m idx], a, some (f t)) := by
  have hc : classifyErr (f t) = ErrAction.nextModel404 ∨
      classifyErr (f t) = ErrAction.nextModelOther := by
    unfold classifyErr
    rw [hf]
    cases hasMarker404 (f t) <;> simp
  rcases hc with hc | hc <;> simp [runAttempts, hb, hp, hc]

/-- A truthy `analysis` stops the outer loop at once. -/
theorem runModels_truthy (b : Behavior) (f : PyStr → PyStr)
    (ms : List String) (a : Json) (le : Option PyStr) (h : pyTruthy a = true) :
    runModels b f ms a le = ([], a, le) := by
  cases ms <;> simp [runModels, h]

/-- With a falsy `analysis`, the outer loop runs the head model's retry
loop and continues with the tail. -/
theorem runModels_cons (b : Behavior) (f : PyStr → PyStr) (m : String)
    (ms : List String) (a : Json) (le : Option PyStr) (h : pyTruthy a = false) :
    runModels b f (m :: ms) a le =
      ((runAttempts b f m 3 0 a le).1 ++
        (runModels b f ms (runAttempts b f m 3 0 a le).2.1
          (runAttempts b f m 3 0 a le).2.2).1,
       (runModels b f ms (runAttempts b f m 3 0 a le).2.1
          (runAttempts b f m 3 0 a le).2.2).2) := by
  rcases h1 : runAttempts b f m 3 0 a le with ⟨tr, a2, le2⟩
  rcases h2 : runModels b f ms a2 le2 with ⟨tr2, a3, le3⟩
  simp [runModels, h, h1, h2]

/-! ## Claim C1 -/

/-- C1 counterexample: on the response text hello, the brace span does
not exist and the whole text does not parse; the code then answers the
request with HTTP 500 (Failed to parse AI response) instead of returning
the fallback literal the claim describes, so malformed generation output
does surface to the caller as an error. -/
theorem C1_counterexample :
    pyNormalize "hello".data = none ∧
    bytezStepC (BytezResult.output "hello".data) =
      Except.error (500, "Failed to parse AI response".data) ∧
    bytezStepC (BytezResult.output "hello".data) ≠
      Except.ok (specFallbackLiteral "Inception".data) := by
  refine ⟨rfl, rfl, ?_⟩
  intro h
  exact Except.noConfusion h

/-- C1 amended: when neither the brace span nor the whole text parses,
no fallback literal is substituted; the Bytez variant fails the request
with HTTP 500 (Failed to parse AI response), and the Gemini variant
records the decode error and abandons the candidate (advancing to the
next model) whenever the decode-error text is not rate-limit flavored. -/
theorem C1_amended_no_fallback (t : PyStr) (h : pyNormalize t = none) :
    bytezStepC (BytezResult.output t) =
      Except.error (500, "Failed to parse AI response".data) ∧
    ∀ (b : Behavior) (f : PyStr → PyStr) (m : String) (rem : Nat) (a : Json)
      (le : Option PyStr), b m 0 = StepResult.output t →
      isRateLimitErr (f t) = false →
      runAttempts b f m (rem + 1) 0 a le = ([Event.invoke m 0], a, some (f t)) := by
  constructor
  · simp [bytezStepC, h]
  · intro b f m rem a le hb hf
    exact runAttempts_parsefail b f m rem 0 a le t hb h hf

/-- C1 witness: the amended theorem applied to the unparseable response
text hello and a one-model behavior whose decode error text is the
actual CPython message for that input. -/
theorem C1_amended_witness :
    bytezStepC (BytezResult.output "hello".data) =
      Except.error (500, "Failed to parse AI response".data) ∧
    runAttempts (fun _ _ => StepResult.output "hello".data)
      (fun _ => "Expecting value: line 1 column 1 (char 0)".data)
      "gemini-2.0-flash" 3 0 Json.null none =
      ([Event.invoke "gemini-2.0-flash" 0], Json.null,
        some "Expecting value: line 1 column 1 (char 0)".data) :=
  ⟨(C1_amended_no_fallback "hello".data rfl).1,
   (C1_amended_no_fallback "hello".data rfl).2
     (fun _ _ => StepResult.output "hello".data)
     (fun _ => "Expecting value: line 1 column 1 (char 0)".data)
     "gemini-2.0-flash" 2 Json.null none rfl rfl⟩

/-! ## Claim C2 -/

/-- C2: evaluating the search step on a catalog response with zero
matches.  The code raises `HTTPException(404)` inside its own try block;
the blanket `except Exception` clause catches it and re-raises HTTP 500
with the stringified 404 embedded in the detail, so the caller sees 500,
not the 404 the claim (and the code's own raise) intends. -/
theorem C2_code_evaluation :
    searchStep (SearchOutcome.ok []) =
      Except.error (500, "TMDB Search Error: 404: Movie not found on TMDB".data) ∧
    searchStep (SearchOutcome.ok []) ≠
      Except.error (404, "Movie not found on TMDB".data) := by
  refine ⟨rfl, ?_⟩
  intro h
  have h2 := Except.error.inj h
  have h3 := congrArg Prod.fst h2
  simp at h3

/-! ## Claim C5 -/

/-- C5: a candidate whose first invocation raises an error carrying the
not-found marker 404 (and not rate-limit flavored) is attempted exactly
once: its block of the trace is the single invocation, with no sleep,
and the loop continues with the remaining candidates, the error
recorded as `last_error`. -/
theorem C5_notfound_advances (b : Behavior) (f : PyStr → PyStr) (m : String)
    (ms : List String) (a : Json) (le : Option PyStr) (s : PyStr)
    (ha : pyTruthy a = false) (hb : b m 0 = StepResult.error s)
    (h404 : hasMarker404 s = true) (hrl : isRateLimitErr s = false) :
    (runModels b f (m :: ms) a le).1 =
      Event.invoke m 0 :: (runModels b f ms a (some s)).1 ∧
    (runModels b f (m :: ms) a le).2 = (runModels b f ms a (some s)).2 := by
  rw [runModels_cons b f m ms a le ha,
    runAttempts_break b f m 2 0 a le s hb hrl]
  constructor <;> simp

/-- C5 witness: a model failing with a pure 404 error is invoked once and
the loop moves on to the rest of the list. -/
theorem C5_witness :
    (runModels (fun _ _ => StepResult.error "404 model not found".data)
      (fun _ => []) ["gemini-2.0-flash"] Json.null none).1 =
      Event.invoke "gemini-2.0-flash" 0 ::
        (runModels (fun _ _ => StepResult.error "404 model not found".data)
          (fun _ => []) [] Json.null (some "404 model not found".data)).1 ∧
    (runModels (fun _ _ => StepResult.error "404 model not found".data)
      (fun _ => []) ["gemini-2.0-flash"] Json.null none).2 =
      (runModels (fun _ _ => StepResult.error "404 model not found".data)
        (fun _ => []) [] Json.null (some "404 model not found".data)).2 :=
  C5_notfound_advances (fun _ _ => StepResult.error "404 model not found".data)
    (fun _ => []) "gemini-2.0-flash" [] Json.null none
    "404 model not found".data rfl rfl rfl rfl

/-! ## Claim C10 -/

/-- C10: in the classification chain the rate-limit test comes first, so
an error text carrying both a rate-limit marker (429, or quota after
lower-casing) and the not-found marker 404 is classified for retry, and
the loop indeed sleeps and re-invokes the same model at the next attempt
index rather than advancing to the next model. -/
theorem C10_rate_limit_precedence (s : PyStr)
    (h429 : containsSub "429".data s = true ∨
      containsSub "quota".data (pyLower s) = true)
    (h404 : hasMarker404 s = true) :
    classifyErr s = ErrAction.retry ∧
    ∀ (b : Behavior) (f : PyStr → PyStr) (m : String) (rem : Nat) (a : Json)
      (le : Option PyStr), b m 0 = StepResult.error s →
      runAttempts b f m (rem + 2) 0 a le =
        (Event.invoke m 0 :: Event.sleep 4 ::
          (runAttempts b f m (rem + 1) 1 a (some s)).1,
         (runAttempts b f m (rem + 1) 1 a (some s)).2) := by
  have hrl : isRateLimitErr s = true := by
    unfold isRateLimitErr hasMarker429
    rcases h429 with h | h <;> simp [h]
  refine ⟨by unfold classifyErr; rw [hrl]; simp, ?_⟩
  intro b f m rem a le hb
  exact runAttempts_retry b f m (rem + 1) 0 a le s hb hrl

/-- C10 witness: the theorem applied to an error text containing both
429 and 404. -/
theorem C10_witness :
    classifyErr "Error 429: 404 quota".data = ErrAction.retry ∧
    runAttempts (fun _ _ => StepResult.error "Error 429: 404 quota".data)
      (fun _ => []) "gemini-pro" 3 0 Json.null none =
      (Event.invoke "gemini-pro" 0 :: Event.sleep 4 ::
        (runAttempts (fun _ _ => StepResult.error "Error 429: 404 quota".data)
          (fun _ => []) "gemini-pro" 2 1 Json.null
          (some "Error 429: 404 quota".data)).1,
       (runAttempts (fun _ _ => StepResult.error "Error 429: 404 quota".data)
          (fun _ => []) "gemini-pro" 2 1 Json.null
          (some "Error 429: 404 quota".data)).2) :=
  ⟨(C10_rate_limit_precedence "Error 429: 404 quota".data (Or.inl rfl) rfl).1,
   (C10_rate_limit_precedence "Error 429: 404 quota".data (Or.inl rfl) rfl).2
     (fun _ _ => StepResult.error "Error 429: 404 quota".data)
     (fun _ => []) "gemini-pro" 1 Json.null none rfl⟩

/-! ## Claim C8 -/

/-- All contents present on the records makes the list comprehension
succeed with the mapped contents. -/
theorem contentsOf_eq (l : List ReviewRec)
    (h : ∀ r ∈ l, (r.content).isSome = true) :
    contentsOf l = some (l.map (fun rec => rec.content.getD [])) := by
  induction l with
  | nil => rfl
  | cons r t ih =>
    have hr := h r (by simp)
    obtain ⟨c, hc⟩ := Option.isSome_iff_exists.mp hr
    have ht := ih (fun x hx => h x (by simp [hx]))
    simp [contentsOf, hc, ht]

/-- C8: with the review fetch succeeding and the first at-most-five
records well formed, the review set passed on is the first at-most-five
review contents; with a zero-match list it is the one-element list
holding the synopsis (possibly the empty string when the overview key is
absent); and with the fetch failing it is likewise the synopsis; in all
three cases `reviewsFor` produces a value, so the request goes on. -/
theorem C8_reviews_selection (ov : Option PyStr) (rs : List ReviewRec)
    (h : ∀ r ∈ rs.take 5, (r.content).isSome = true) :
    reviewsFor ov (ReviewsFetch.ok rs) =
      (if rs.isEmpty then [ov.getD []]
       else (rs.take 5).map (fun rec => rec.content.getD [])) ∧
    reviewsFor ov ReviewsFetch.fail = [ov.getD []] := by
  refine ⟨?_, rfl⟩
  show (match contentsOf (rs.take 5) with
    | none => [ov.getD []]
    | some revs => if revs.isEmpty then [ov.getD []] else revs) = _
  rw [contentsOf_eq _ h]
  cases rs with
  | nil => simp
  | cons r t => simp

/-- C8 witness: the theorem applied to a concrete overview and two
reviews. -/
theorem C8_witness :
    reviewsFor (some "syn".data)
      (ReviewsFetch.ok [⟨some "good".data⟩, ⟨some "bad".data⟩]) =
      ["good".data, "bad".data] ∧
    reviewsFor (some "syn".data) ReviewsFetch.fail = ["syn".data] := by
  have h := C8_reviews_selection (some "syn".data)
    [⟨some "good".data⟩, ⟨some "bad".data⟩] (by decide)
  exact ⟨h.1, h.2⟩

/-! ## Claim C9 -/

/-- C9 counterexample: the two prompt builders in the source truncate the
same joined review text at different caps (5000 in the Bytez variant,
10000 in the Gemini variant), so no single cap is applied uniformly, and
on a 7000-character review the two prompts differ. -/
theorem C9_counterexample :
    truncateAt 5000 (joinReviews [List.replicate 7000 'a']) ≠
      truncateAt 10000 (joinReviews [List.replicate 7000 'a']) ∧
    buildPromptBytez "T".data [List.replicate 7000 'a'] ≠
      buildPromptGemini "T".data [List.replicate 7000 'a'] := by
  have hj : joinReviews [List.replicate 7000 'a'] = List.replicate 7000 'a' := rfl
  have h1 : (truncateAt 5000 (joinReviews [List.replicate 7000 'a'])).length = 5000 := by
    rw [hj]
    unfold truncateAt
    rw [List.length_replicate, if_pos (by omega), List.length_take,
      List.length_replicate]
    omega
  have h2 : (truncateAt 10000 (joinReviews [List.replicate 7000 'a'])).length = 7000 := by
    rw [hj]
    unfold truncateAt
    rw [List.length_replicate, if_neg (by omega), List.length_replicate]
  constructor
  · intro h
    rw [congrArg List.length h] at h1
    omega
  · intro h
    have := congrArg List.length h
    unfold buildPromptBytez buildPromptGemini at this
    rw [List.length_append, List.length_append, h1, h2] at this
    omega

/-- Truncation never exceeds the cap. -/
theorem truncateAt_length_le (cap : Nat) (s : PyStr) :
    (truncateAt cap s).length ≤ cap := by
  unfold truncateAt
  by_cases h : cap < s.length
  · rw [if_pos h]
    simp
  · rw [if_neg h]
    omega

/-- C9 amended: each variant applies its own fixed cap uniformly to the
joined review text (5000 in the Bytez variant, 10000 in the Gemini
variant); for every non-empty review list of at most five reviews the
truncated review text never exceeds the variant's cap, and in both
variants the instruction preamble is left intact at the head of the
prompt, unaffected by truncation. -/
theorem C9_amended_caps (title : PyStr) (reviews : List PyStr)
    (h1 : reviews ≠ []) (h2 : reviews.length ≤ 5) :
    (truncateAt 5000 (joinReviews reviews)).length ≤ 5000 ∧
    (truncateAt 10000 (joinReviews reviews)).length ≤ 10000 ∧
    List.take (promptPreamble title).length (buildPromptBytez title reviews) =
      promptPreamble title ∧
    List.take (promptPreamble title).length (buildPromptGemini title reviews) =
      promptPreamble title := by
  refine ⟨truncateAt_length_le 5000 _, truncateAt_length_le 10000 _, ?_, ?_⟩
  · unfold buildPromptBytez
    exact List.take_left _ _
  · unfold buildPromptGemini
    exact List.take_left _ _

/-- C9 witness: the amended theorem applied to a one-review list. -/
theorem C9_amended_witness :
    (truncateAt 5000 (joinReviews ["good".data])).length ≤ 5000 ∧
    (truncateAt 10000 (joinReviews ["good".data])).length ≤ 10000 ∧
    List.take (promptPreamble "T".data).length
      (buildPromptBytez "T".data ["good".data]) = promptPreamble "T".data ∧
    List.take (promptPreamble "T".data).length
      (buildPromptGemini "T".data ["good".data]) = promptPreamble "T".data :=
  C9_amended_caps "T".data ["good".data] (by simp) (by simp)

/-! ## Claim C3 -/

/-- C3: when every invocation of the first configured model raises a
rate-limited error and the second model returns output parsing to a
non-empty analysis, the loop invokes the first model exactly
`max_retries = 3` times at attempt indices 0, 1, 2, sleeping 4 seconds
after each rate-limited attempt (in particular between consecutive
attempts), then advances, and the request returns the second model's
normalized output. -/
theorem C3_rate_limit_retry_then_advance (b : Behavior) (f : PyStr → PyStr)
    (e : Nat → PyStr) (t : PyStr) (a : Json)
    (h1 : ∀ i, b "gemini-2.0-flash" i = StepResult.error (e i))
    (h2 : ∀ i, isRateLimitErr (e i) = true)
    (h3 : b "gemini-1.5-flash" 0 = StepResult.output t)
    (h4 : pyNormalize t = some a) (h5 : pyTruthy a = true) :
    geminiOrchestrate b f =
      ([Event.invoke "gemini-2.0-flash" 0, Event.sleep 4,
        Event.invoke "gemini-2.0-flash" 1, Event.sleep 4,
        Event.invoke "gemini-2.0-flash" 2, Event.sleep 4,
        Event.invoke "gemini-1.5-flash" 0], Outcome.ok a) := by
  have hd : runAttempts b f "gemini-2.0-flash" 0 3 Json.null (some (e 2)) =
      ([], Json.null, some (e 2)) := rfl
  have hc := runAttempts_retry b f "gemini-2.0-flash" 0 2 Json.null
    (some (e 1)) (e 2) (h1 2) (h2 2)
  rw [hd] at hc
  have hbb := runAttempts_retry b f "gemini-2.0-flash" 1 1 Json.null
    (some (e 0)) (e 1) (h1 1) (h2 1)
  rw [hc] at hbb
  have ha := runAttempts_retry b f "gemini-2.0-flash" 2 0 Json.null
    none (e 0) (h1 0) (h2 0)
  rw [hbb] at ha
  have hm2 := runAttempts_success b f "gemini-1.5-flash" 2 0 Json.null
    (some (e 2)) t a h3 h4
  have hrest : runModels b f ["gemini-1.5-flash", "gemini-1.5-flash-001",
      "gemini-pro"] Json.null (some (e 2)) =
      ([Event.invoke "gemini-1.5-flash" 0], a, some (e 2)) := by
    rw [runModels_cons b f "gemini-1.5-flash"
      ["gemini-1.5-flash-001", "gemini-pro"] Json.null (some (e 2)) rfl, hm2]
    simp [runModels_truthy b f _ a _ h5]
  have hall : runModels b f modelsToTry Json.null none =
      ([Event.invoke "gemini-2.0-flash" 0, Event.sleep 4,
        Event.invoke "gemini-2.0-flash" 1, Event.sleep 4,
        Event.invoke "gemini-2.0-flash" 2, Event.sleep 4,
        Event.invoke "gemini-1.5-flash" 0], a, some (e 2)) := by
    unfold modelsToTry
    rw [runModels_cons b f "gemini-2.0-flash"
      ["gemini-1.5-flash", "gemini-1.5-flash-001", "gemini-pro"]
      Json.null none rfl, ha, hrest]
    simp
  unfold geminiOrchestrate
  rw [hall]
  dsimp only
  unfold finalize
  rw [if_pos h5]

/-- C3 witness: the theorem applied to a behavior whose first model
always reports a 429 error and whose second model returns a one-member
JSON object. -/
theorem C3_witness :
    geminiOrchestrate
      (fun m _ => if m = "gemini-2.0-flash"
        then StepResult.error "429 Too Many Requests".data
        else StepResult.output "\x7b\x22k\x22:1\x7d".data)
      (fun _ => []) =
      ([Event.invoke "gemini-2.0-flash" 0, Event.sleep 4,
        Event.invoke "gemini-2.0-flash" 1, Event.sleep 4,
        Event.invoke "gemini-2.0-flash" 2, Event.sleep 4,
        Event.invoke "gemini-1.5-flash" 0],
       Outcome.ok (Json.obj [("k".data, Json.num 1)])) :=
  C3_rate_limit_retry_then_advance
    (fun m _ => if m = "gemini-2.0-flash"
      then StepResult.error "429 Too Many Requests".data
      else StepResult.output "\x7b\x22k\x22:1\x7d".data)
    (fun _ => []) (fun _ => "429 Too Many Requests".data)
    "\x7b\x22k\x22:1\x7d".data (Json.obj [("k".data, Json.num 1)])
    (fun _ => rfl) (fun _ => rfl) rfl rfl rfl

/-! ## Claim C4 -/

/-- C4 counterexample: a run in which every invocation fails with the
error text quota exceeded is rate-limit flavored by the code's own
classification (it is retried as a rate limit), yet after exhaustion the
final check only looks for 429 in `str(last_error)`, so the caller gets
a generic HTTP 500 instead of the 429 busy signal the claim requires
for rate-limit-flavored exhaustion. -/
theorem C4_counterexample :
    isRateLimitErr "quota exceeded".data = true ∧
    (geminiOrchestrate (fun _ _ => StepResult.error "quota exceeded".data)
      (fun _ => [])).2 =
      Outcome.httpError 500
        ("All models failed. Last error: quota exceeded".data) := by
  exact ⟨rfl, rfl⟩

/-- C4 amended: when the fallback loop exhausts with a falsy `analysis`,
the reported outcome is the distinguished 429 busy signal exactly when
`str(last_error)` contains the marker 429; any other last error —
including one that is rate-limit flavored only through the quota
marker — yields the generic HTTP 500 failure. -/
theorem C4_amended_exhaustion_status (b : Behavior) (f : PyStr → PyStr)
    (hex : pyTruthy (runModels b f modelsToTry Json.null none).2.1 = false) :
    ((geminiOrchestrate b f).2 = Outcome.httpError 429 busyDetail ↔
      hasMarker429 (pyStrOfErr
        (runModels b f modelsToTry Json.null none).2.2) = true) ∧
    (hasMarker429 (pyStrOfErr
        (runModels b f modelsToTry Json.null none).2.2) = false →
      (geminiOrchestrate b f).2 =
        Outcome.httpError 500
          (exhaustDetail (runModels b f modelsToTry Json.null none).2.2)) := by
  rcases hr : runModels b f modelsToTry Json.null none with ⟨tr, a, le⟩
  rw [hr] at hex
  dsimp at hex
  unfold geminiOrchestrate
  rw [hr]
  dsimp only
  unfold finalize
  rw [if_neg (by rw [hex]; simp)]
  constructor
  · cases h429 : hasMarker429 (pyStrOfErr le) with
    | true => simp
    | false => simp
  · intro h429
    rw [if_neg (by rw [h429]; simp)]

/-- C4 witness: the amended theorem applied to the all-quota behavior;
its exhaustion is rate-limit flavored only through the quota marker, so
the 429 signal is (vacuously for the iff, positively for the second
part) replaced by the generic 500. -/
theorem C4_amended_witness :
    ((geminiOrchestrate (fun _ _ => StepResult.error "quota exceeded".data)
        (fun _ => [])).2 = Outcome.httpError 429 busyDetail ↔
      hasMarker429 (pyStrOfErr
        (runModels (fun _ _ => StepResult.error "quota exceeded".data)
          (fun _ => []) modelsToTry Json.null none).2.2) = true) ∧
    (geminiOrchestrate (fun _ _ => StepResult.error "quota exceeded".data)
        (fun _ => [])).2 =
      Outcome.httpError 500
        (exhaustDetail (runModels
          (fun _ _ => StepResult.error "quota exceeded".data)
          (fun _ => []) modelsToTry Json.null none).2.2) :=
  ⟨(C4_amended_exhaustion_status
      (fun _ _ => StepResult.error "quota exceeded".data) (fun _ => []) rfl).1,
   (C4_amended_exhaustion_status
      (fun _ _ => StepResult.error "quota exceeded".data) (fun _ => []) rfl).2 rfl⟩

/-! ## Claim C7 -/

/-- Invoked models distribute over trace concatenation. -/
theorem invokedList_append (t1 t2 : List Event) :
    invokedList (t1 ++ t2) = invokedList t1 ++ invokedList t2 := by
  induction t1 with
  | nil => rfl
  | cons ev t ih => cases ev <;> simp [invokedList, ih]

/-- Every invocation inside one model's retry loop is of that model, and
with at least one attempt available at least one invocation happens. -/
theorem runAttempts_invoked (b : Behavior) (f : PyStr → PyStr) (m : String) :
    ∀ (rem idx : Nat) (a : Json) (le : Option PyStr),
    ∃ k, invokedList (runAttempts b f m rem idx a le).1 = List.replicate k m ∧
      (0 < rem → 0 < k) := by
  intro rem
  induction rem with
  | zero => intro idx a le; exact ⟨0, rfl, by omega⟩
  | succ n ih =>
    intro idx a le
    cases hb : b m idx with
    | output t =>
      cases hp : pyNormalize t with
      | some v =>
        exact ⟨1, by simp [runAttempts, hb, hp, invokedList], by omega⟩
      | none =>
        cases hc : classifyErr (f t) with
        | retry =>
          obtain ⟨k, hk, _⟩ := ih (idx + 1) a (some (f t))
          rcases hr : runAttempts b f m n (idx + 1) a (some (f t)) with ⟨tr, a2, le2⟩
          rw [hr] at hk
          refine ⟨k + 1, ?_, by omega⟩
          simp only [runAttempts, hb, hp, hc, hr]
          simp only [invokedList] at hk ⊢
          simp [hk, List.replicate_succ]
        | nextModel404 =>
          exact ⟨1, by simp [runAttempts, hb, hp, hc, invokedList], by omega⟩
        | nextModelOther =>
          exact ⟨1, by simp [runAttempts, hb, hp, hc, invokedList], by omega⟩
    | error s =>
      cases hc : classifyErr s with
      | retry =>
        obtain ⟨k, hk, _⟩ := ih (idx + 1) a (some s)
        rcases hr : runAttempts b f m n (idx + 1) a (some s) with ⟨tr, a2, le2⟩
        rw [hr] at hk
        refine ⟨k + 1, ?_, by omega⟩
        simp only [runAttempts, hb, hc, hr]
        simp only [invokedList] at hk ⊢
        simp [hk, List.replicate_succ]
      | nextModel404 =>
        exact ⟨1, by simp [runAttempts, hb, hc, invokedList], by omega⟩
      | nextModelOther =>
        exact ⟨1, by simp [runAttempts, hb, hc, invokedList], by omega⟩

/-- Dropping a matched pattern never lengthens a list. -/
theorem dropWhile_length_le {α : Type} (p : α → Bool) (l : List α) :
    (l.dropWhile p).length ≤ l.length := by
  induction l with
  | nil => simp
  | cons x t ih =>
    rw [List.dropWhile_cons]
    by_cases h : p x = true
    · rw [if_pos h]
      simp
      omega
    · rw [if_neg h]

/-- The fuel of `dedupAdjAux` is irrelevant once it covers the length. -/
theorem dedupAdjAux_fuel_eq :
    ∀ (fuel1 fuel2 : Nat) (l : List String), l.length ≤ fuel1 →
      l.length ≤ fuel2 → dedupAdjAux fuel1 l = dedupAdjAux fuel2 l := by
  intro fuel1
  induction fuel1 with
  | zero =>
    intro fuel2 l h1 h2
    have : l = [] := by
      cases l with
      | nil => rfl
      | cons x t => simp at h1
    subst this
    cases fuel2 <;> rfl
  | succ n ih =>
    intro fuel2 l h1 h2
    cases l with
    | nil => cases fuel2 <;> rfl
    | cons x t =>
      cases fuel2 with
      | zero => simp at h2
      | succ n2 =>
        simp only [dedupAdjAux]
        have hd := dropWhile_length_le (fun y => x == y) t
        have ht1 : (t.dropWhile (fun y => x == y)).length ≤ n := by
          simp at h1
          omega
        have ht2 : (t.dropWhile (fun y => x == y)).length ≤ n2 := by
          simp at h2
          omega
        rw [ih n2 _ ht1 ht2]

/-- A list whose members all differ from `m` survives dropping the run
of `m`. -/
theorem dropWhile_eq_self_of_ne (m : String) (l : List String)
    (h : ∀ y ∈ l, y ≠ m) :
    l.dropWhile (fun y => m == y) = l := by
  cases l with
  | nil => rfl
  | cons x t =>
    rw [List.dropWhile_cons]
    have hx := h x (by simp)
    have : (m == x) = false := by
      rw [beq_eq_false_iff_ne]
      exact fun he => hx he.symm
    rw [this]
    simp

/-- Dropping the run of `m` removes a leading replicate block. -/
theorem dropWhile_replicate (k : Nat) (m : String) (l : List String)
    (h : ∀ y ∈ l, y ≠ m) :
    (List.replicate k m ++ l).dropWhile (fun y => m == y) = l := by
  induction k with
  | zero => simpa using dropWhile_eq_self_of_ne m l h
  | succ n ih =>
    rw [List.replicate_succ]
    simpa [List.dropWhile_cons] using ih

/-- Adjacent deduplication of a replicate block followed by a list free
of the repeated element. -/
theorem dedup_replicate_step (fuel k : Nat) (m : String) (l : List String)
    (h : ∀ y ∈ l, y ≠ m) :
    dedupAdjAux (fuel + 1) (List.replicate (k + 1) m ++ l) =
      m :: dedupAdjAux fuel l := by
  rw [List.replicate_succ, List.cons_append]
  simp only [dedupAdjAux]
  rw [dropWhile_replicate k m l h]

/-- Every model invoked by the outer loop is one of the candidates given
to it. -/
theorem runModels_invoked_mem (b : Behavior) (f : PyStr → PyStr) :
    ∀ (ms : List String) (a : Json) (le : Option PyStr) (x : String),
    x ∈ invokedList (runModels b f ms a le).1 → x ∈ ms := by
  intro ms
  induction ms with
  | nil => intro a le x hx; simp [runModels, invokedList] at hx
  | cons m t ih =>
    intro a le x hx
    by_cases ht : pyTruthy a = true
    · rw [runModels_truthy b f _ a le ht] at hx
      simp [invokedList] at hx
    · rw [runModels_cons b f m t a le (by simpa using ht)] at hx
      dsimp at hx
      rw [invokedList_append] at hx
      rcases List.mem_append.mp hx with hx1 | hx2
      · obtain ⟨k, hk, _⟩ := runAttempts_invoked b f m 3 0 a le
        rw [hk] at hx1
        have := List.eq_of_mem_replicate hx1
        simp [this]
      · exact List.mem_cons_of_mem m (ih _ _ x hx2)

/-- With pairwise-distinct candidates, the invoked models, collapsed by
run, form an initial segment of the candidate list. -/
theorem runModels_initialSegment (b : Behavior) (f : PyStr → PyStr) :
    ∀ (ms : List String), ms.Nodup → ∀ (a : Json) (le : Option PyStr),
    ∃ k, dedupAdj (invokedList (runModels b f ms a le).1) = List.take k ms := by
  intro ms
  induction ms with
  | nil => intro _ a le; exact ⟨0, rfl⟩
  | cons m t ih =>
    intro hnd a le
    have hmem : m ∉ t := (List.nodup_cons.mp hnd).1
    have hndt : t.Nodup := (List.nodup_cons.mp hnd).2
    by_cases ht : pyTruthy a = true
    · rw [runModels_truthy b f _ a le ht]
      exact ⟨0, rfl⟩
    · rw [runModels_cons b f m t a le (by simpa using ht)]
      dsimp
      rw [invokedList_append]
      obtain ⟨k, hk, hpos⟩ := runAttempts_invoked b f m 3 0 a le
      obtain ⟨k1, hk1⟩ : ∃ k1, k = k1 + 1 := by
        have := hpos (by omega)
        exact ⟨k - 1, by omega⟩
      rw [hk, hk1]
      set Y := invokedList (runModels b f t
        (runAttempts b f m 3 0 a le).2.1 (runAttempts b f m 3 0 a le).2.2).1 with hY
      have hYne : ∀ y ∈ Y, y ≠ m := by
        intro y hy
        intro he
        have := runModels_invoked_mem b f t _ _ y hy
        rw [he] at this
        exact hmem this
      obtain ⟨k2, hk2⟩ := ih hndt (runAttempts b f m 3 0 a le).2.1
        (runAttempts b f m 3 0 a le).2.2
      unfold dedupAdj
      have hlen : (List.replicate (k1 + 1) m ++ Y).length = (k1 + Y.length) + 1 := by
        rw [List.length_append, List.length_replicate]
        omega
      rw [hlen, dedup_replicate_step (k1 + Y.length) k1 m Y hYne]
      rw [dedupAdjAux_fuel_eq (k1 + Y.length) Y.length Y (by omega) (by omega)]
      refine ⟨k2 + 1, ?_⟩
      rw [List.take_succ_cons]
      unfold dedupAdj at hk2
      rw [← hY] at hk2
      rw [hk2]

/-- C7 counterexample: the first candidate's output is the empty JSON
object, which the normalizer parses successfully, so per the claim the
orchestrator should stop there; but the code's truthiness check treats
the empty object as no analysis and invokes the second candidate
afterwards, returning its output instead. -/
theorem C7_counterexample :
    pyNormalize "\x7b\x7d".data = some (Json.obj []) ∧
    geminiOrchestrate
      (fun m _ => if m = "gemini-2.0-flash"
        then StepResult.output "\x7b\x7d".data
        else StepResult.output "\x7b\x22k\x22:1\x7d".data)
      (fun _ => []) =
      ([Event.invoke "gemini-2.0-flash" 0, Event.invoke "gemini-1.5-flash" 0],
       Outcome.ok (Json.obj [("k".data, Json.num 1)])) :=
  ⟨rfl, rfl⟩

/-- C7 amended: candidates are tried strictly in the configured priority
order with no reordering - the models invoked, collapsed by run, always
form an initial segment of the configured list - and once a candidate
yields a truthy (non-empty) parsed object no further candidate is
invoked; a candidate whose output parses to a falsy value (such as the
empty object) does not stop the fallback. -/
theorem C7_amended_ordering (b : Behavior) (f : PyStr → PyStr) :
    (∃ k, dedupAdj (invokedList (geminiOrchestrate b f).1) =
      List.take k modelsToTry) ∧
    (∀ (ms : List String) (a : Json) (le : Option PyStr),
      pyTruthy a = true → runModels b f ms a le = ([], a, le)) := by
  constructor
  · have hnd : modelsToTry.Nodup := by
      unfold modelsToTry
      decide
    obtain ⟨k, hk⟩ := runModels_initialSegment b f modelsToTry hnd Json.null none
    refine ⟨k, ?_⟩
    unfold geminiOrchestrate
    rcases hr : runModels b f modelsToTry Json.null none with ⟨tr, a, le⟩
    rw [hr] at hk
    exact hk
  · intro ms a le h
    exact runModels_truthy b f ms a le h

/-- C7 witness: the amended theorem applied to a concrete behavior, and
its halting part applied to a truthy analysis. -/
theorem C7_amended_witness :
    (∃ k, dedupAdj (invokedList (geminiOrchestrate
      (fun _ _ => StepResult.error "boom".data) (fun _ => [])).1) =
      List.take k modelsToTry) ∧
    runModels (fun _ _ => StepResult.error "boom".data) (fun _ => [])
      ["gemini-pro"] (Json.bool true) none = ([], Json.bool true, none) :=
  ⟨(C7_amended_ordering (fun _ _ => StepResult.error "boom".data)
      (fun _ => [])).1,
   (C7_amended_ordering (fun _ _ => StepResult.error "boom".data)
      (fun _ => [])).2 ["gemini-pro"] (Json.bool true) none rfl⟩

/-! ## Claim C6: round trip of the serialized AnalysisResult -/

/-- Reading back a serialized hexadecimal digit. -/
theorem hexVal_hexDigit (d : Nat) (h : d < 16) :
    hexVal (hexDigit d) = some d := by
  interval_cases d <;> rfl

/-- Serialized decimal digits are digit characters. -/
theorem digitChar_isDigit (d : Nat) (h : d < 10) :
    (digitChar d).isDigit = true := by
  interval_cases d <;> rfl

/-- Reading back a serialized decimal digit. -/
theorem digitChar_toNat (d : Nat) (h : d < 10) :
    (digitChar d).toNat - 48 = d := by
  interval_cases d <;> rfl

/-- A nonzero digit is not the zero character. -/
theorem digitChar_ne_zero (d : Nat) (h0 : 0 < d) (h : d < 10) :
    digitChar d ≠ '0' := by
  interval_cases d <;> decide

/-- Escaping one character in front of an escaped tail. -/
theorem escapeChars_cons (c : Char) (s : PyStr) :
    escapeChars (c :: s) = escapeChar c ++ escapeChars s := by
  simp [escapeChars]

/-- Definitional step: a closing quote ends the string body. -/
theorem parseStringBody_quote (rest : List Char) :
    parseStringBody ('"' :: rest) = some ([], rest) := by
  conv_lhs => unfold parseStringBody
  rfl

/-- Definitional step: an escaped quote prepends a quote character. -/
theorem parseStringBody_escQuote (x : List Char) :
    parseStringBody ('\\' :: '"' :: x) =
      (match parseStringBody x with
       | some (s2, r) => some ('"' :: s2, r)
       | none => none) := by
  conv_lhs => unfold parseStringBody
  rfl

/-- Definitional step: an escaped backslash prepends a backslash. -/
theorem parseStringBody_escBackslash (x : List Char) :
    parseStringBody ('\\' :: '\\' :: x) =
      (match parseStringBody x with
       | some (s2, r) => some ('\\' :: s2, r)
       | none => none) := by
  conv_lhs => unfold parseStringBody
  rfl

/-- Definitional step: a \u00xx escape decodes its two low hex digits. -/
theorem parseStringBody_escU (c3 c4 : Char) (x : List Char) :
    parseStringBody ('\\' :: 'u' :: '0' :: '0' :: c3 :: c4 :: x) =
      (match hexVal '0', hexVal '0', hexVal c3, hexVal c4 with
       | some v1, some v2, some v3, some v4 =>
         match parseStringBody x with
         | some (s2, r) =>
           some (Char.ofNat (((v1 * 16 + v2) * 16 + v3) * 16 + v4) :: s2, r)
         | none => none
       | _, _, _, _ => none) := by
  conv_lhs => unfold parseStringBody
  rfl

/-- Step for an unescaped ordinary character. -/
theorem parseStringBody_plain (c : Char) (x : List Char) (h1 : c ≠ '"')
    (h2 : c ≠ '\\') (h3 : ¬c.toNat < 32) :
    parseStringBody (c :: x) =
      (match parseStringBody x with
       | some (s2, r) => some (c :: s2, r)
       | none => none) := by
  conv_lhs => unfold parseStringBody
  rw [if_neg h1, if_neg h2, if_neg h3]

/-- The string-literal round trip: parsing the escaped body followed by
the closing quote recovers the original characters and the remainder. -/
theorem parseStringBody_round (s : PyStr) :
    ∀ rest : List Char,
      parseStringBody (escapeChars s ++ '"' :: rest) = some (s, rest) := by
  induction s with
  | nil =>
    intro rest
    rw [show escapeChars [] = [] from rfl, List.nil_append, parseStringBody_quote]
  | cons c s ih =>
    intro rest
    rw [escapeChars_cons]
    by_cases h1 : c = '"'
    · subst h1
      rw [show escapeChar '"' = ['\\', '"'] from rfl]
      simp only [List.cons_append, List.nil_append]
      rw [parseStringBody_escQuote, ih rest]
    · by_cases h2 : c = '\\'
      · subst h2
        rw [show escapeChar '\\' = ['\\', '\\'] from rfl]
        simp only [List.cons_append, List.nil_append]
        rw [parseStringBody_escBackslash, ih rest]
      · by_cases h3 : c.toNat < 32
        · have hdiv : c.toNat / 16 < 16 := by omega
          have hmod : c.toNat % 16 < 16 := by omega
          have hesc : escapeChar c =
              ['\\', 'u', '0', '0', hexDigit (c.toNat / 16),
               hexDigit (c.toNat % 16)] := by
            unfold escapeChar
            rw [if_neg h1, if_neg h2, if_pos h3]
          rw [hesc]
          simp only [List.cons_append, List.nil_append]
          rw [parseStringBody_escU, hexVal_hexDigit _ hdiv,
            hexVal_hexDigit _ hmod, show hexVal '0' = some 0 from rfl,
            ih rest]
          show some (Char.ofNat (((0 * 16 + 0) * 16 + c.toNat / 16) * 16 +
            c.toNat % 16) :: s, rest) = some (c :: s, rest)
          have hval : ((0 * 16 + 0) * 16 + c.toNat / 16) * 16 + c.toNat % 16
              = c.toNat := by omega
          rw [hval, Char.ofNat_toNat]
        · have hesc : escapeChar c = [c] := by
            unfold escapeChar
            rw [if_neg h1, if_neg h2, if_neg h3]
          rw [hesc]
          simp only [List.cons_append, List.nil_append]
          rw [parseStringBody_plain c _ h1 h2 h3, ih rest]

/-- Every natural number is below the fuel bound its digits need. -/
theorem lt_pow10_succ (n : Nat) : n < 10 ^ (n + 1) := by
  have h1 : n < 10 ^ n := Nat.lt_pow_self (by omega) n
  have h2 : 10 ^ n ≤ 10 ^ (n + 1) := Nat.pow_le_pow_right (by omega) (by omega)
  omega

/-- Unfolding of the digit serializer at positive fuel. -/
theorem natToCharsAux_succ (g n : Nat) :
    natToCharsAux (g + 1) n =
      if n < 10 then [digitChar n]
      else natToCharsAux g (n / 10) ++ [digitChar (n % 10)] := by
  conv_lhs => unfold natToCharsAux

/-- The serialized digits of a bounded number are digit characters. -/
theorem natToCharsAux_digits :
    ∀ (fuel n : Nat), n < 10 ^ fuel →
      ∀ c ∈ natToCharsAux fuel n, c.isDigit = true := by
  intro fuel
  induction fuel with
  | zero =>
    intro n hn c hc
    simp at hn
    subst hn
    simp [natToCharsAux] at hc
  | succ g ih =>
    intro n hn c hc
    by_cases h10 : n < 10
    · rw [natToCharsAux_succ, if_pos h10] at hc
      simp at hc
      subst hc
      exact digitChar_isDigit n h10
    · rw [natToCharsAux_succ, if_neg h10] at hc
      rcases List.mem_append.mp hc with hc1 | hc2
      · have hdiv : n / 10 < 10 ^ g := by
          apply Nat.div_lt_of_lt_mul
          rw [pow_succ] at hn
          omega
        exact ih (n / 10) hdiv c hc1
      · simp at hc2
        subst hc2
        exact digitChar_isDigit (n % 10) (by omega)

/-- The serialized digits of a bounded number are never empty. -/
theorem natToCharsAux_ne_nil (g n : Nat) : natToCharsAux (g + 1) n ≠ [] := by
  rw [natToCharsAux_succ]
  by_cases h10 : n < 10
  · rw [if_pos h10]
    simp
  · rw [if_neg h10]
    simp

/-- The leading digit of a positive bounded number is not zero. -/
theorem natToCharsAux_head_ne_zero :
    ∀ (fuel n : Nat), 0 < n → n < 10 ^ fuel →
      (natToCharsAux fuel n).head? ≠ some '0' := by
  intro fuel
  induction fuel with
  | zero =>
    intro n h0 hn
    simp at hn
    omega
  | succ g ih =>
    intro n h0 hn
    rw [natToCharsAux_succ]
    by_cases h10 : n < 10
    · rw [if_pos h10]
      simp
      exact digitChar_ne_zero n h0 h10
    · rw [if_neg h10]
      have hdiv : n / 10 < 10 ^ g := by
        apply Nat.div_lt_of_lt_mul
        rw [pow_succ] at hn
        omega
      have h0d : 0 < n / 10 := by
        have := Nat.div_le_div_right (c := 10) (Nat.le_of_not_lt h10)
        simpa using this
      obtain ⟨c0, t0, ht0⟩ := List.exists_cons_of_ne_nil
        (show natToCharsAux g (n / 10) ≠ [] from by
          cases g with
          | zero => simp at hdiv; omega
          | succ g2 => exact natToCharsAux_ne_nil g2 (n / 10))
      have := ih (n / 10) h0d hdiv
      rw [ht0] at this ⊢
      simpa using this

/-- Folding the digit-accumulation step over the serialized digits of a
bounded number recovers the number, shifted by the accumulator. -/
theorem foldl_natToCharsAux :
    ∀ (fuel n : Nat), n < 10 ^ fuel → ∀ (a : Nat),
      List.foldl (fun acc c => acc * 10 + (c.toNat - 48)) a
        (natToCharsAux fuel n) =
        a * 10 ^ (natToCharsAux fuel n).length + n := by
  intro fuel
  induction fuel with
  | zero =>
    intro n hn a
    simp at hn
    subst hn
    simp [natToCharsAux]
  | succ g ih =>
    intro n hn a
    by_cases h10 : n < 10
    · rw [natToCharsAux_succ, if_pos h10]
      simp [digitChar_toNat n h10]
    · rw [natToCharsAux_succ, if_neg h10]
      have hdiv : n / 10 < 10 ^ g := by
        apply Nat.div_lt_of_lt_mul
        rw [pow_succ] at hn
        omega
      rw [List.foldl_append, ih (n / 10) hdiv a]
      simp only [List.foldl_cons, List.foldl_nil, List.length_append,
        List.length_cons, List.length_nil]
      rw [digitChar_toNat (n % 10) (by omega)]
      have hmod := Nat.div_add_mod n 10
      set l := (natToCharsAux g (n / 10)).length with hl
      rw [pow_succ]
      ring_nf
      omega

/-- Reading back the serialized digits of a number. -/
theorem natOfDigits_natToChars (n : Nat) :
    natOfDigits (natToChars n) = n := by
  unfold natOfDigits natToChars
  rw [foldl_natToCharsAux (n + 1) n (lt_pow10_succ n) 0]
  simp

/-- Digit collection splits a digit run from a non-digit continuation. -/
theorem collectDigits_append :
    ∀ (ds rest : List Char), (∀ c ∈ ds, c.isDigit = true) →
      (∀ c ∈ rest.take 1, c.isDigit = false) →
      collectDigits (ds ++ rest) = (ds, rest) := by
  intro ds
  induction ds with
  | nil =>
    intro rest _ hrest
    cases rest with
    | nil => rfl
    | cons r rt =>
      have hr := hrest r (by simp)
      simp only [List.nil_append]
      unfold collectDigits
      rw [hr]
      simp
  | cons d dt ih =>
    intro rest hds hrest
    have hd := hds d (by simp)
    have hdt := ih rest (fun c hc => hds c (by simp [hc])) hrest
    simp only [List.cons_append]
    unfold collectDigits
    rw [hd]
    simp only [hdt]
    simp

/-- The digit part of the integer round trip, with sign handled by the
caller: parsing the serialized digits of `n` against a non-digit,
non-continuation remainder. -/
theorem parseNumTail_round (neg : Bool) (n : Nat) (rest : List Char)
    (hrest : ∀ c ∈ rest.take 1, c.isDigit = false)
    (hcont : numberContinues rest = false) :
    parseNumTail neg (natToChars n ++ rest) =
      some (if neg then -(n : Int) else (n : Int), rest) := by
  unfold parseNumTail
  have hdigits : ∀ c ∈ natToChars n, c.isDigit = true :=
    natToCharsAux_digits (n + 1) n (lt_pow10_succ n)
  rw [collectDigits_append (natToChars n) rest hdigits hrest]
  dsimp only
  have hne : (natToChars n).isEmpty = false := by
    have := natToCharsAux_ne_nil n n
    unfold natToChars
    cases hh : natToCharsAux (n + 1) n with
    | nil => exact absurd hh this
    | cons x t => rfl
  have hlead : (1 < (natToChars n).length &&
      (natToChars n).head? == some '0') = false := by
    by_cases h0 : n = 0
    · subst h0
      rfl
    · have := natToCharsAux_head_ne_zero (n + 1) n (by omega) (lt_pow10_succ n)
      unfold natToChars
      have hbeq : ((natToCharsAux (n + 1) n).head? == some '0') = false := by
        rw [beq_eq_false_iff_ne]
        exact this
      rw [hbeq]
      simp
  rw [hne, hlead, hcont, natOfDigits_natToChars]
  cases neg <;> simp

/-- The integer round trip: parsing the serialized integer against a
non-digit, non-continuation remainder recovers the integer. -/
theorem parseNum_round (z : Int) (rest : List Char)
    (hrest : ∀ c ∈ rest.take 1, c.isDigit = false)
    (hcont : numberContinues rest = false) :
    parseNum (serializeInt z ++ rest) = some (z, rest) := by
  unfold serializeInt
  by_cases hz : z < 0
  · rw [if_pos hz]
    rw [List.cons_append]
    rw [show parseNum ('-' :: (natToChars z.natAbs ++ rest)) =
      parseNumTail true (natToChars z.natAbs ++ rest) from rfl]
    rw [parseNumTail_round true z.natAbs rest hrest hcont]
    have hzz : -((z.natAbs : Nat) : Int) = z := by omega
    simp [hzz]
    rw [abs_of_neg hz]
    ring
  · rw [if_neg hz]
    obtain ⟨c, t, hct⟩ := List.exists_cons_of_ne_nil
      (show natToChars z.natAbs ≠ [] from natToCharsAux_ne_nil z.natAbs z.natAbs)
    have hcdig : c.isDigit = true := by
      apply natToCharsAux_digits (z.natAbs + 1) z.natAbs (lt_pow10_succ z.natAbs)
      rw [show natToCharsAux (z.natAbs + 1) z.natAbs = natToChars z.natAbs from rfl,
        hct]
      simp
    have hcne : ¬(c = '-') := by
      intro he
      rw [he] at hcdig
      exact absurd hcdig (by decide)
    rw [hct, List.cons_append]
    rw [show parseNum (c :: (t ++ rest)) =
      (if c = '-' then parseNumTail true (t ++ rest)
       else parseNumTail false (c :: (t ++ rest))) from rfl]
    rw [if_neg hcne]
    rw [show c :: (t ++ rest) = (c :: t) ++ rest from rfl, ← hct]
    rw [parseNumTail_round false z.natAbs rest hrest hcont]
    have hzz : ((z.natAbs : Nat) : Int) = z := by omega
    simp [hzz]

/-- Whitespace skipping leaves a list headed by a non-whitespace
character unchanged. -/
theorem skipWs_cons_false (c : Char) (x : List Char)
    (h : isJsonWs c = false) : skipWs (c :: x) = c :: x := by
  unfold skipWs
  rw [List.dropWhile_cons, h]
  simp

/-- A string literal in front of a remainder, in cons form. -/
theorem serializeStr_append (s : PyStr) (x : List Char) :
    serializeStr s ++ x = '"' :: (escapeChars s ++ '"' :: x) := by
  simp [serializeStr]

/-- Definitional step of the value parser on a string literal. -/
theorem parseVal_step_quote (fuel : Nat) (x : List Char) :
    parseVal (fuel + 1) ('"' :: x) =
      (match parseStringBody x with
       | some (s, r) => some (Json.str s, r)
       | none => none) := by
  conv_lhs => unfold parseVal
  rw [skipWs_cons_false '"' x (by decide)]
  rfl

/-- The value parser on a serialized string literal. -/
theorem parseVal_str (fuel : Nat) (s : PyStr) (rest : List Char) :
    parseVal (fuel + 1) (serializeStr s ++ rest) =
      some (Json.str s, rest) := by
  rw [serializeStr_append, parseVal_step_quote, parseStringBody_round]

/-- A minus sign or digit head is not JSON whitespace. -/
theorem num_head_not_ws (c : Char) (hcd : c = '-' ∨ c.isDigit = true) :
    isJsonWs c = false := by
  rcases hcd with h | h
  · subst h
    decide
  · unfold isJsonWs
    have hs : (c == ' ') = false := by
      rw [beq_eq_false_iff_ne]
      intro he
      rw [he] at h
      exact absurd h (by decide)
    have ht : (c == '\t') = false := by
      rw [beq_eq_false_iff_ne]
      intro he
      rw [he] at h
      exact absurd h (by decide)
    have hn : (c == '\n') = false := by
      rw [beq_eq_false_iff_ne]
      intro he
      rw [he] at h
      exact absurd h (by decide)
    have hr : (c == '\r') = false := by
      rw [beq_eq_false_iff_ne]
      intro he
      rw [he] at h
      exact absurd h (by decide)
    rw [hs, ht, hn, hr]
    rfl

/-- A minus sign or digit head differs from the given keyword or
delimiter character. -/
theorem num_head_ne (c d : Char) (hcd : c = '-' ∨ c.isDigit = true)
    (hd1 : ¬('-' = d)) (hd2 : d.isDigit = false) : ¬(c = d) := by
  rcases hcd with h | h
  · subst h
    exact hd1
  · intro he
    rw [he] at h
    rw [h] at hd2
    cases hd2

/-- Definitional step of the value parser on a number head. -/
theorem parseVal_step_num (fuel : Nat) (c : Char) (x : List Char)
    (hcd : c = '-' ∨ c.isDigit = true) :
    parseVal (fuel + 1) (c :: x) =
      (match parseNum (c :: x) with
       | some (z, r) => some (Json.num z, r)
       | none => none) := by
  conv_lhs => unfold parseVal
  rw [skipWs_cons_false c x (num_head_not_ws c hcd)]
  dsimp only
  rw [if_neg (num_head_ne c 'n' hcd (by decide) (by decide)),
    if_neg (num_head_ne c 't' hcd (by decide) (by decide)),
    if_neg (num_head_ne c 'f' hcd (by decide) (by decide)),
    if_neg (num_head_ne c '"' hcd (by decide) (by decide)),
    if_neg (num_head_ne c '[' hcd (by decide) (by decide)),
    if_neg (num_head_ne c '{' hcd (by decide) (by decide))]
  have hcond : (c = '-' || c.isDigit) = true := by
    rcases hcd with h | h
    · subst h
      simp
    · simp [h]
  rw [if_pos hcond]

/-- Head shape of a serialized integer. -/
theorem serializeInt_head (z : Int) :
    ∃ c t, serializeInt z = c :: t ∧ (c = '-' ∨ c.isDigit = true) := by
  unfold serializeInt
  by_cases hz : z < 0
  · rw [if_pos hz]
    exact ⟨'-', natToChars z.natAbs, rfl, Or.inl rfl⟩
  · rw [if_neg hz]
    obtain ⟨c, t, hct⟩ := List.exists_cons_of_ne_nil
      (show natToChars z.natAbs ≠ [] from natToCharsAux_ne_nil z.natAbs z.natAbs)
    refine ⟨c, t, hct, Or.inr ?_⟩
    apply natToCharsAux_digits (z.natAbs + 1) z.natAbs (lt_pow10_succ z.natAbs)
    rw [show natToCharsAux (z.natAbs + 1) z.natAbs = natToChars z.natAbs from rfl,
      hct]
    simp

/-- The value parser on a serialized integer. -/
theorem parseVal_num (fuel : Nat) (z : Int) (rest : List Char)
    (hrest : ∀ c ∈ rest.take 1, c.isDigit = false)
    (hcont : numberContinues rest = false) :
    parseVal (fuel + 1) (serializeInt z ++ rest) =
      some (Json.num z, rest) := by
  obtain ⟨c, t, hct, hcd⟩ := serializeInt_head z
  rw [hct, List.cons_append, parseVal_step_num fuel c _ hcd,
    ← List.cons_append, ← hct, parseNum_round z rest hrest hcont]

/-- Definitional step of the value parser on an array opener. -/
theorem parseVal_step_arr (fuel : Nat) (x : List Char) :
    parseVal (fuel + 1) ('[' :: x) =
      (match skipWs x with
       | ']' :: r => some (Json.arr [], r)
       | _ =>
         match parseItemsAux (parseVal fuel) fuel x with
         | some (vs, r) => some (Json.arr vs, r)
         | none => none) := by
  conv_lhs => unfold parseVal
  rw [skipWs_cons_false '[' x (by decide)]
  rfl

/-- Item list of a one-string array. -/
theorem serializeStrItems_single (t : PyStr) :
    serializeStrItems [t] = serializeStr t := by
  simp [serializeStrItems]

/-- Item list of an at-least-two-string array. -/
theorem serializeStrItems_cons2 (t t2 : PyStr) (ts : List PyStr) :
    serializeStrItems (t :: t2 :: ts) =
      serializeStr t ++ ',' :: serializeStrItems (t2 :: ts) := by
  conv_lhs => unfold serializeStrItems
  simp

/-- Parsing the serialized items of a non-empty string array against the
closing bracket recovers the string values. -/
theorem parseItemsAux_strs :
    ∀ (tags : List PyStr) (fi fv : Nat) (rest : List Char), tags ≠ [] →
      tags.length ≤ fi →
      parseItemsAux (parseVal (fv + 1)) fi
        (serializeStrItems tags ++ ']' :: rest) =
        some (tags.map Json.str, rest) := by
  intro tags
  induction tags with
  | nil => intro fi fv rest hne _; exact absurd rfl hne
  | cons t ts ih =>
    intro fi fv rest _ hlen
    obtain ⟨fi2, rfl⟩ : ∃ fi2, fi = fi2 + 1 := by
      refine ⟨fi - 1, ?_⟩
      simp at hlen
      omega
    cases ts with
    | nil =>
      rw [serializeStrItems_single]
      conv_lhs => unfold parseItemsAux
      rw [parseVal_str fv t (']' :: rest)]
      dsimp only
      rw [skipWs_cons_false ']' rest (by decide)]
      rfl
    | cons t2 ts2 =>
      rw [serializeStrItems_cons2]
      rw [show (serializeStr t ++ ',' :: serializeStrItems (t2 :: ts2)) ++
          ']' :: rest =
          serializeStr t ++ ',' ::
            (serializeStrItems (t2 :: ts2) ++ ']' :: rest) from by simp]
      conv_lhs => unfold parseItemsAux
      rw [parseVal_str fv t
        (',' :: (serializeStrItems (t2 :: ts2) ++ ']' :: rest))]
      dsimp only
      rw [skipWs_cons_false ',' _ (by decide)]
      show (match parseItemsAux (parseVal (fv + 1)) fi2
          (serializeStrItems (t2 :: ts2) ++ ']' :: rest) with
        | some (vs, r3) => some (Json.str t :: vs, r3)
        | none => none) = some (List.map Json.str (t :: t2 :: ts2), rest)
      rw [ih fi2 fv rest (by simp) (by simp at hlen ⊢; omega)]
      rfl

/-- The value parser on a serialized array of strings. -/
theorem parseVal_arr (fuel : Nat) (tags : List PyStr) (rest : List Char)
    (hlen : tags.length + 1 ≤ fuel) :
    parseVal (fuel + 1) (serializeStrList tags ++ rest) =
      some (Json.arr (tags.map Json.str), rest) := by
  rw [show serializeStrList tags ++ rest =
    '[' :: (serializeStrItems tags ++ ']' :: rest) from by
      simp [serializeStrList]]
  rw [parseVal_step_arr]
  cases tags with
  | nil =>
    rw [show serializeStrItems [] = [] from rfl, List.nil_append,
      skipWs_cons_false ']' rest (by decide)]
    rfl
  | cons t ts =>
    obtain ⟨fu, rfl⟩ : ∃ fu, fuel = fu + 1 := by
      refine ⟨fuel - 1, ?_⟩
      simp at hlen
      omega
    have hform : serializeStrItems (t :: ts) ++ ']' :: rest =
        '"' :: (escapeChars t ++ '"' ::
          ((if ts.isEmpty then [] else ',' :: serializeStrItems ts) ++
            ']' :: rest)) := by
      conv_lhs => rw [show serializeStrItems (t :: ts) =
        serializeStr t ++
          (if ts.isEmpty then [] else ',' :: serializeStrItems ts) from by
          conv_lhs => unfold serializeStrItems]
      simp [serializeStr]
    have hsk : skipWs (serializeStrItems (t :: ts) ++ ']' :: rest) =
        '"' :: (escapeChars t ++ '"' ::
          ((if ts.isEmpty then [] else ',' :: serializeStrItems ts) ++
            ']' :: rest)) := by
      rw [hform]
      exact skipWs_cons_false _ _ (by decide)
    rw [hsk]
    show (match parseItemsAux (parseVal (fu + 1)) (fu + 1)
        (serializeStrItems (t :: ts) ++ ']' :: rest) with
      | some (vs, r) => some (Json.arr vs, r)
      | none => none) =
      some (Json.arr (List.map Json.str (t :: ts)), rest)
    rw [parseItemsAux_strs (t :: ts) (fu + 1) fu rest (by simp)
      (by simp at hlen ⊢; omega)]

/-- Definitional step of the member parser on a quoted key. -/
theorem parseMembersAux_step (pv : List Char → Option (Json × List Char))
    (fuel : Nat) (r : List Char) :
    parseMembersAux pv (fuel + 1) ('"' :: r) =
      (match parseStringBody r with
       | none => none
       | some (k, r2) =>
         match skipWs r2 with
         | ':' :: r3 =>
           match pv r3 with
           | none => none
           | some (v, r4) =>
             match skipWs r4 with
             | ',' :: r5 =>
               match parseMembersAux pv fuel r5 with
               | some (ms, r6) => some ((k, v) :: ms, r6)
               | none => none
             | '}' :: r5 => some ([(k, v)], r5)
             | _ => none
         | _ => none) := by
  conv_lhs => unfold parseMembersAux
  rw [skipWs_cons_false '"' r (by decide)]
  rfl

/-- The member parser after reading a serialized key. -/
theorem parseMembersAux_key (pv : List Char → Option (Json × List Char))
    (fuel : Nat) (k : PyStr) (x : List Char) :
    parseMembersAux pv (fuel + 1)
      ('"' :: (escapeChars k ++ '"' :: ':' :: x)) =
      (match pv x with
       | none => none
       | some (v, r4) =>
         match skipWs r4 with
         | ',' :: r5 =>
           match parseMembersAux pv fuel r5 with
           | some (ms, r6) => some ((k, v) :: ms, r6)
           | none => none
         | '}' :: r5 => some ([(k, v)], r5)
         | _ => none) := by
  rw [parseMembersAux_step, parseStringBody_round k (':' :: x)]
  dsimp only
  rw [skipWs_cons_false ':' x (by decide)]
  rfl

/-- A serialized key and colon in front of a value, in cons form. -/
theorem serializeStr_colon (k : PyStr) (x : List Char) :
    serializeStr k ++ ':' :: x =
      '"' :: (escapeChars k ++ '"' :: ':' :: x) := by
  simp [serializeStr]

/-- The last member of a serialized object: its value is followed by the
closing brace. -/
theorem parseMembersAux_last (pv : List Char → Option (Json × List Char))
    (fuel : Nat) (k : PyStr) (vcs : List Char) (v : Json) (tl2 : List Char)
    (hpv : pv (vcs ++ '}' :: tl2) = some (v, '}' :: tl2)) :
    parseMembersAux pv (fuel + 1)
      (serializeStr k ++ ':' :: (vcs ++ '}' :: tl2)) =
      some ([(k, v)], tl2) := by
  rw [serializeStr_colon, parseMembersAux_key, hpv]
  dsimp only
  rw [skipWs_cons_false '}' tl2 (by decide)]
  rfl

/-- An inner member of a serialized object: its value is followed by a
comma and the remaining members. -/
theorem parseMembersAux_cons (pv : List Char → Option (Json × List Char))
    (fuel : Nat) (k : PyStr) (vcs : List Char) (v : Json) (tl2 : List Char)
    (ms : List (PyStr × Json)) (r6 : List Char)
    (hpv : pv (vcs ++ ',' :: tl2) = some (v, ',' :: tl2))
    (hms : parseMembersAux pv fuel tl2 = some (ms, r6)) :
    parseMembersAux pv (fuel + 1)
      (serializeStr k ++ ':' :: (vcs ++ ',' :: tl2)) =
      some ((k, v) :: ms, r6) := by
  rw [serializeStr_colon, parseMembersAux_key, hpv]
  dsimp only
  rw [skipWs_cons_false ',' tl2 (by decide)]
  show (match parseMembersAux pv fuel tl2 with
    | some (ms2, r7) => some ((k, v) :: ms2, r7)
    | none => none) = some ((k, v) :: ms, r6)
  rw [hms]

/-- Definitional step of the value parser on an object opener. -/
theorem parseVal_step_obj (fuel : Nat) (x : List Char) :
    parseVal (fuel + 1) ('{' :: x) =
      (match skipWs x with
       | '}' :: r => some (Json.obj [], r)
       | _ =>
         match parseMembersAux (parseVal fuel) fuel x with
         | some (ms, r) => some (Json.obj ms, r)
         | none => none) := by
  conv_lhs => unfold parseVal
  rw [skipWs_cons_false '{' x (by decide)]
  rfl

/-- A string literal is at least two characters long. -/
theorem serializeStr_length_ge (s : PyStr) : 2 ≤ (serializeStr s).length := by
  simp [serializeStr]

/-- The item list of a string array is at most one shorter than the
number of items. -/
theorem serializeStrItems_length :
    ∀ (tags : List PyStr), tags.length ≤ (serializeStrItems tags).length + 1 := by
  intro tags
  induction tags with
  | nil => simp
  | cons t ts ih =>
    rw [show serializeStrItems (t :: ts) =
      serializeStr t ++ (if ts.isEmpty then [] else ',' :: serializeStrItems ts)
      from by conv_lhs => unfold serializeStrItems]
    have h2 := serializeStr_length_ge t
    cases ts with
    | nil => simp
    | cons t2 ts2 =>
      rw [if_neg (by simp)]
      rw [List.length_append, List.length_cons]
      simp only [List.length_cons] at ih ⊢
      omega

/-- The serialized AnalysisResult is long enough to cover the fuel the
parser needs for its tag array. -/
theorem serializeAnalysis_length (a : AnalysisResult) :
    a.vibe_tags.length + 2 ≤ (serializeAnalysis a).length := by
  have h1 := serializeStrItems_length a.vibe_tags
  unfold serializeAnalysis analysisBody serializeStrList
  cases hvp : a.visual_prompt <;>
    simp [List.length_append] <;> omega

/-- The object parser on a brace followed by a serialized first key:
when the member parser consumes everything, the value parser returns the
object. -/
theorem parseVal_obj_of_members (fuel : Nat) (k : PyStr) (x : List Char)
    (ms : List (PyStr × Json))
    (hm : parseMembersAux (parseVal fuel) fuel
      (serializeStr k ++ ':' :: x) = some (ms, [])) :
    parseVal (fuel + 1) ('{' :: (serializeStr k ++ ':' :: x)) =
      some (Json.obj ms, []) := by
  rw [parseVal_step_obj]
  rw [show skipWs (serializeStr k ++ ':' :: x) =
    '"' :: (escapeChars k ++ '"' :: ':' :: x) from by
      rw [serializeStr_colon]; exact skipWs_cons_false _ _ (by decide)]
  show (match parseMembersAux (parseVal fuel) fuel
      (serializeStr k ++ ':' :: x) with
    | some (ms2, r) => some (Json.obj ms2, r)
    | none => none) = some (Json.obj ms, [])
  rw [hm]

/-- Parsing the full serialized AnalysisResult with sufficient fuel
recovers its Json value with nothing left over. -/
theorem parseVal_serializeAnalysis (a : AnalysisResult) (G : Nat)
    (hG : a.vibe_tags.length ≤ G + 1) :
    parseVal (G + 6) (serializeAnalysis a) =
      some (analysisToJson a, []) := by
  cases hvp : a.visual_prompt with
  | none =>
    have hshape : serializeAnalysis a =
        '{' :: (serializeStr "sentiment_summary".data ++ ':' ::
          (serializeStr a.sentiment_summary ++ ',' ::
            (serializeStr "vibe_tags".data ++ ':' ::
              (serializeStrList a.vibe_tags ++ ',' ::
                (serializeStr "intensity_score".data ++ ':' ::
                  (serializeInt a.intensity_score ++ '}' :: [])))))) := by
      unfold serializeAnalysis analysisBody
      rw [hvp]
      simp [List.append_assoc]
    have hjson : analysisToJson a =
        Json.obj [("sentiment_summary".data, Json.str a.sentiment_summary),
                  ("vibe_tags".data, Json.arr (a.vibe_tags.map Json.str)),
                  ("intensity_score".data, Json.num a.intensity_score)] := by
      unfold analysisToJson
      rw [hvp]
    rw [hshape, hjson]
    apply parseVal_obj_of_members
    have h3 : parseMembersAux (parseVal (G + 5)) (G + 3)
        (serializeStr "intensity_score".data ++ ':' ::
          (serializeInt a.intensity_score ++ '}' :: [])) =
        some ([("intensity_score".data, Json.num a.intensity_score)], []) := by
      apply parseMembersAux_last
      apply parseVal_num
      · intro c hc
        simp at hc
        subst hc
        decide
      · rfl
    have h2 : parseMembersAux (parseVal (G + 5)) (G + 4)
        (serializeStr "vibe_tags".data ++ ':' ::
          (serializeStrList a.vibe_tags ++ ',' ::
            (serializeStr "intensity_score".data ++ ':' ::
              (serializeInt a.intensity_score ++ '}' :: [])))) =
        some ([("vibe_tags".data, Json.arr (a.vibe_tags.map Json.str)),
               ("intensity_score".data, Json.num a.intensity_score)], []) := by
      apply parseMembersAux_cons _ _ _ _ _ _ _ _ _ h3
      exact parseVal_arr (G + 4) a.vibe_tags _ (by omega)
    apply parseMembersAux_cons _ _ _ _ _ _ _ _ _ h2
    exact parseVal_str (G + 4) a.sentiment_summary _
  | some v =>
    have hshape : serializeAnalysis a =
        '{' :: (serializeStr "sentiment_summary".data ++ ':' ::
          (serializeStr a.sentiment_summary ++ ',' ::
            (serializeStr "vibe_tags".data ++ ':' ::
              (serializeStrList a.vibe_tags ++ ',' ::
                (serializeStr "intensity_score".data ++ ':' ::
                  (serializeInt a.intensity_score ++ ',' ::
                    (serializeStr "visual_prompt".data ++ ':' ::
                      (serializeStr v ++ '}' :: [])))))))) := by
      unfold serializeAnalysis analysisBody
      rw [hvp]
      simp [List.append_assoc]
    have hjson : analysisToJson a =
        Json.obj [("sentiment_summary".data, Json.str a.sentiment_summary),
                  ("vibe_tags".data, Json.arr (a.vibe_tags.map Json.str)),
                  ("intensity_score".data, Json.num a.intensity_score),
                  ("visual_prompt".data, Json.str v)] := by
      unfold analysisToJson
      rw [hvp]
    rw [hshape, hjson]
    apply parseVal_obj_of_members
    have h4 : parseMembersAux (parseVal (G + 5)) (G + 2)
        (serializeStr "visual_prompt".data ++ ':' ::
          (serializeStr v ++ '}' :: [])) =
        some ([("visual_prompt".data, Json.str v)], []) := by
      apply parseMembersAux_last
      exact parseVal_str (G + 4) v _
    have h3 : parseMembersAux (parseVal (G + 5)) (G + 3)
        (serializeStr "intensity_score".data ++ ':' ::
          (serializeInt a.intensity_score ++ ',' ::
            (serializeStr "visual_prompt".data ++ ':' ::
              (serializeStr v ++ '}' :: [])))) =
        some ([("intensity_score".data, Json.num a.intensity_score),
               ("visual_prompt".data, Json.str v)], []) := by
      apply parseMembersAux_cons _ _ _ _ _ _ _ _ _ h4
      apply parseVal_num
      · intro c hc
        simp at hc
        subst hc
        decide
      · rfl
    have h2 : parseMembersAux (parseVal (G + 5)) (G + 4)
        (serializeStr "vibe_tags".data ++ ':' ::
          (serializeStrList a.vibe_tags ++ ',' ::
            (serializeStr "intensity_score".data ++ ':' ::
              (serializeInt a.intensity_score ++ ',' ::
                (serializeStr "visual_prompt".data ++ ':' ::
                  (serializeStr v ++ '}' :: [])))))) =
        some ([("vibe_tags".data, Json.arr (a.vibe_tags.map Json.str)),
               ("intensity_score".data, Json.num a.intensity_score),
               ("visual_prompt".data, Json.str v)], []) := by
      apply parseMembersAux_cons _ _ _ _ _ _ _ _ _ h3
      exact parseVal_arr (G + 4) a.vibe_tags _ (by omega)
    apply parseMembersAux_cons _ _ _ _ _ _ _ _ _ h2
    exact parseVal_str (G + 4) a.sentiment_summary _

/-- Reading back the full serialization with `json.loads`. -/
theorem parse_serializeAnalysis (a : AnalysisResult) :
    Json.parse (serializeAnalysis a) = some (analysisToJson a) := by
  have hlb := serializeAnalysis_length a
  obtain ⟨G, hG1, hG2⟩ : ∃ G, 2 * (serializeAnalysis a).length + 2 = G + 6 ∧
      a.vibe_tags.length ≤ G + 1 :=
    ⟨2 * (serializeAnalysis a).length - 4, by omega, by omega⟩
  unfold Json.parse
  rw [hG1, parseVal_serializeAnalysis a G hG2]
  rfl

/-- Characters failing a pattern throughout a leading block are dropped
as a block. -/
theorem dropWhile_append_of_all (p : Char → Bool) :
    ∀ (l1 l2 : List Char), (∀ c ∈ l1, p c = true) →
      List.dropWhile p (l1 ++ l2) = List.dropWhile p l2 := by
  intro l1
  induction l1 with
  | nil => intro l2 _; rfl
  | cons c t ih =>
    intro l2 h
    rw [List.cons_append, List.dropWhile_cons, h c (by simp)]
    rw [if_pos rfl]
    exact ih l2 (fun d hd => h d (by simp [hd]))

/-- The greedy brace span of a brace-balanced block wrapped in text with
no opening brace before it and no closing brace after it is exactly the
block. -/
theorem extractSpan_wrap (pre mid post : List Char)
    (h1 : '{' ∉ pre) (h2 : '}' ∉ post) :
    extractSpan (pre ++ ('{' :: (mid ++ ['}'])) ++ post) =
      some ('{' :: (mid ++ ['}'])) := by
  unfold extractSpan
  rw [List.append_assoc]
  rw [show ('{' :: (mid ++ ['}'])) ++ post =
    '{' :: ((mid ++ ['}']) ++ post) from rfl]
  rw [dropWhile_append_of_all _ pre _ (fun c hc => by
    rw [bne_iff_ne]
    intro he
    rw [he] at hc
    exact h1 hc)]
  rw [List.dropWhile_cons]
  rw [if_neg (by decide)]
  dsimp only
  have hrev : ('{' :: ((mid ++ ['}']) ++ post)).reverse =
      post.reverse ++ ('}' :: (mid.reverse ++ ['{'])) := by
    simp
  rw [hrev]
  rw [dropWhile_append_of_all _ post.reverse _ (fun c hc => by
    rw [bne_iff_ne]
    intro he
    rw [he] at hc
    exact h2 (List.mem_reverse.mp hc))]
  rw [List.dropWhile_cons]
  rw [if_neg (by decide)]
  dsimp only
  simp

/-- C6 counterexample: a serialized AnalysisResult embedded in
surrounding text that itself contains an opening brace.  The greedy span
then starts at the stray brace, covers non-JSON text, and fails to
parse; the whole-text parse is not even attempted because a span was
found, so the original object is not recovered. -/
theorem C6_counterexample :
    pyNormalize ("\x7b ".data ++
      serializeAnalysis ⟨"ok".data, ["a".data], 5, none⟩) ≠
      some (analysisToJson ⟨"ok".data, ["a".data], 5, none⟩) := by
  intro h
  have hn : pyNormalize ("\x7b ".data ++
      serializeAnalysis ⟨"ok".data, ["a".data], 5, none⟩) = none := rfl
  rw [hn] at h
  exact Option.noConfusion h

/-- C6 amended: the round trip holds whenever the surrounding text has
no opening brace before the serialized object and no closing brace after
it (which covers markdown fences and ordinary prose): normalize locates
the span from the first opening brace through the last closing brace,
which is then exactly the serialized object, and parsing recovers the
identical object. -/
theorem C6_amended_roundtrip (a : AnalysisResult) (pre post : PyStr)
    (h1 : '{' ∉ pre) (h2 : '}' ∉ post) :
    pyNormalize (pre ++ serializeAnalysis a ++ post) =
      some (analysisToJson a) := by
  have hser : serializeAnalysis a = '{' :: (analysisBody a ++ ['}']) := rfl
  unfold pyNormalize
  rw [show pre ++ serializeAnalysis a ++ post =
    pre ++ ('{' :: (analysisBody a ++ ['}'])) ++ post from by rw [← hser]]
  rw [extractSpan_wrap pre (analysisBody a) post h1 h2]
  dsimp only
  rw [← hser, parse_serializeAnalysis]

/-- C6 witness: the amended theorem applied to a concrete AnalysisResult
wrapped in markdown-style fences. -/
theorem C6_witness :
    ('{' ∉ "json fence:\n".data ∧ '}' ∉ "\nend fence".data) ∧
    pyNormalize ("json fence:\n".data ++
      serializeAnalysis ⟨"Great".data, ["fun".data, "dark".data], 8,
        some "poster".data⟩ ++ "\nend fence".data) =
      some (analysisToJson ⟨"Great".data, ["fun".data, "dark".data], 8,
        some "poster".data⟩) :=
  ⟨⟨by decide, by decide⟩,
   C6_amended_roundtrip ⟨"Great".data, ["fun".data, "dark".data], 8,
     some "poster".data⟩ "json fence:\n".data "\nend fence".data
     (by decide) (by decide)⟩
